import Mathlib

/-!
ungroup_sfml: resource ledger, circle collision utilities and game controller

A shallow embedding of `ResourceController.cpp`, `CollisionUtil.cpp` and `GameController.cpp`.

* `uint32_t` values are natural numbers; every arithmetic operation of the source is
  reduced modulo `2^32` (`u32add`, `u32sub`), and the ledger invariant `WF` records that
  every stored counter is in range.
* `m_resourceCounts` (a map from entity id to a fixed-size array of counters) is an
  association list; `RESOURCE_TYPE_COUNT` (declared in a header that is not part of the
  sources at hand) is the parameter `N`, and a `ResourceType` is an index `Fin N`.
* member functions that mutate the controller take the ledger and return the new ledger
  next to their result.
-/

namespace Ungroup

/-! ## 32-bit unsigned arithmetic -/

/-- Number of values of a `uint32_t`. -/
def U32_MOD : Nat := 4294967296

/-- The value `std::numeric_limits<uint32_t>::max()`. -/
def UINT32_MAX : Nat := 4294967295

/-- Addition of two `uint32_t` values (wraps modulo `2^32`). -/
def u32add (a b : Nat) : Nat := (a + b) % U32_MOD

/-- Subtraction of two `uint32_t` values (wraps modulo `2^32`). -/
def u32sub (a b : Nat) : Nat := (a + U32_MOD - b % U32_MOD) % U32_MOD

/-! ## ResourceController -/

/-- The array `std::array<uint32_t, RESOURCE_TYPE_COUNT>` of one entity. -/
abbrev Counts (N : Nat) := Fin N → Nat

/-- The member `m_resourceCounts`: entity id to counters. -/
abbrev Ledger (N : Nat) := List (Nat × Counts N)

namespace ResourceController

variable {N : Nat}

/-- The value-initialised record `{0, 0, 0, 0}`. -/
def zeros : Counts N := fun _ => 0

/-- The call `m_resourceCounts.count(id)`: 1 when the id has a record, else 0. -/
def count : Ledger N → Nat → Nat
  | [], _ => 0
  | (k, _) :: rest, id => if k = id then 1 else count rest id

/-- Reading `m_resourceCounts[id]`: the record of `id`, value-initialised when there is none. -/
def lookup : Ledger N → Nat → Counts N
  | [], _ => zeros
  | (k, c) :: rest, id => if k = id then c else lookup rest id

/-- The assignment `m_resourceCounts[id][resource_type] = v` (the subscript creates a
value-initialised record when there is none). -/
def assign : Ledger N → Nat → Fin N → Nat → Ledger N
  | [], id, t, v => [(id, Function.update zeros t v)]
  | (k, c) :: rest, id, t, v =>
    if k = id then (k, Function.update c t v) :: rest else (k, c) :: assign rest id t v

/-- The function `ResourceController::init`. -/
def init (L : Ledger N) (id : Nat) : Ledger N :=
  if count L id = 0 then L ++ [(id, zeros)] else L

/-- The function `ResourceController::get(id)`: the whole record. -/
def getAll (L : Ledger N) (id : Nat) : Counts N × Ledger N :=
  let L1 := init L id
  (lookup L1 id, L1)

/-- The function `ResourceController::get(id, resource_type)`. -/
def get (L : Ledger N) (id : Nat) (resource_type : Fin N) : Nat × Ledger N :=
  let L1 := init L id
  (lookup L1 id resource_type, L1)

/-- The function `ResourceController::set`. -/
def set (L : Ledger N) (id : Nat) (resource_type : Fin N) (cnt : Nat) : Ledger N :=
  let L1 := init L id
  assign L1 id resource_type cnt

/-- The function `ResourceController::add`: `((add_count, new_count), ledger)`. -/
def add (L : Ledger N) (id : Nat) (resource_type : Fin N) (cnt : Nat) :
    (Nat × Nat) × Ledger N :=
  let L1 := init L id
  let current_count := lookup L1 id resource_type
  let add_count :=
    if current_count > u32sub UINT32_MAX cnt then u32sub UINT32_MAX current_count else cnt
  let new_count := u32add current_count add_count
  ((add_count, new_count), assign L1 id resource_type new_count)

/-- The function `ResourceController::subtract`: `((subtract_count, new_count), ledger)`. -/
def subtract (L : Ledger N) (id : Nat) (resource_type : Fin N) (cnt : Nat) :
    (Nat × Nat) × Ledger N :=
  let L1 := init L id
  let current_count := lookup L1 id resource_type
  let subtract_count := if current_count < cnt then current_count else cnt
  let new_count := u32sub current_count subtract_count
  ((subtract_count, new_count), assign L1 id resource_type new_count)

/-- The function `ResourceController::move`:
`((subtract_count, sender_count, add_count, reciever_count), ledger)`. -/
def move (L : Ledger N) (src dst : Nat) (resource_type : Fin N) (cnt : Nat) :
    (Nat × Nat × Nat × Nat) × Ledger N :=
  let L1 := init L dst
  let L2 := init L1 src
  let s := subtract L2 src resource_type cnt
  let a := add s.2 dst resource_type s.1.1
  ((s.1.1, s.1.2, a.1.1, a.1.2), a.2)

/-- The balance of `(id, t)` as an observer sees it: an entity without a record counts
as all-zero. -/
def balance (L : Ledger N) (id : Nat) (t : Fin N) : Nat := lookup L id t

/-- The ledger between the two halves of `move`: both records exist and the sender has
been debited. -/
def afterDebit (L : Ledger N) (src dst : Nat) (t : Fin N) (n : Nat) : Ledger N :=
  assign (init (init L dst) src) src t (balance L src t - min (balance L src t) n)

/-- The sum of the balances of resource type `t` over all entities of the ledger. -/
def total (L : Ledger N) (t : Fin N) : Nat := (L.map fun e => e.2 t).sum

/-- Every stored counter is a `uint32_t` value. -/
def WF (L : Ledger N) : Prop := ∀ e ∈ L, ∀ t : Fin N, e.2 t ≤ UINT32_MAX

/-- A ledger with four resource types: entity 7 is close to the maximum. -/
def sampleLedger : Ledger 4 := [(7, ![4294967293, 0, 3, 0]), (9, ![5, 1, 0, 0])]

end ResourceController

/-! ## Vectors, rigid bodies and CollisionUtil

A `float` is an element of a linear ordered field `F` (exact arithmetic: no rounding, and the
quotient by zero is the field's, not a NaN); the square root taken by
`VectorUtil::distance` and `VectorUtil::normalize` is the parameter `sqrt`. -/

/-- The SFML type `sf::Vector2f`. -/
@[ext]
structure Vector2 (F : Type) where
  x : F
  y : F
deriving DecidableEq

namespace Vector2

variable {F : Type} [LinearOrderedField F]

/-- The vector `sf::Vector2f(0.f, 0.f)`. -/
instance : Zero (Vector2 F) := ⟨⟨0, 0⟩⟩

/-- The operator `left + right` of two vectors. -/
instance : Add (Vector2 F) := ⟨fun a b => ⟨a.x + b.x, a.y + b.y⟩⟩

/-- The operator `left - right` of two vectors. -/
instance : Sub (Vector2 F) := ⟨fun a b => ⟨a.x - b.x, a.y - b.y⟩⟩

/-- The unary operator `-right`. -/
instance : Neg (Vector2 F) := ⟨fun a => ⟨-a.x, -a.y⟩⟩

/-- The operator `left * right` of a vector and a scalar. -/
instance : HMul (Vector2 F) F (Vector2 F) := ⟨fun a s => ⟨a.x * s, a.y * s⟩⟩

/-- The operator `left / right` of a vector and a scalar. -/
instance : HDiv (Vector2 F) F (Vector2 F) := ⟨fun a s => ⟨a.x / s, a.y / s⟩⟩

end Vector2

namespace VectorUtil

variable {F : Type} [LinearOrderedField F]

/-- Modelled from the spec: `VectorUtil::distance` (VectorUtil.hpp is not among the sources),
the Euclidean distance of two points. -/
def distance (sqrt : F → F) (a b : Vector2 F) : F :=
  sqrt ((b.x - a.x) * (b.x - a.x) + (b.y - a.y) * (b.y - a.y))

/-- Modelled from the spec: `VectorUtil::getVector` (VectorUtil.hpp is not among the sources),
the direction vector from the first point to the second. -/
def getVector (a b : Vector2 F) : Vector2 F := b - a

/-- Modelled from the spec: `VectorUtil::normalize` (VectorUtil.hpp is not among the sources),
the vector divided by its length, with no special case for the zero vector. -/
def normalize (sqrt : F → F) (v : Vector2 F) : Vector2 F :=
  v / sqrt (v.x * v.x + v.y * v.y)

/-- Modelled from the spec: `VectorUtil::dot` (VectorUtil.hpp is not among the sources). -/
def dot (a b : Vector2 F) : F := a.x * b.x + a.y * b.y

/-- Modelled from the spec: `VectorUtil::getMidpoint` (VectorUtil.hpp is not among the
sources). -/
def getMidpoint (a b : Vector2 F) : Vector2 F := (a + b) / (2 : F)

end VectorUtil

/-- A mass: a finite `float` or `std::numeric_limits<float>::infinity()`. -/
inductive Mass (F : Type) where
  | finite (m : F)
  | infinity
deriving DecidableEq

/-- What `CollisionUtil` reads of a `CircleRigidBody` (its header is not among the sources):
`getId`, `getCenter`, `getRadius`, `getVelocity`, `getMass` and `isMovable`. -/
structure CircleRigidBody (F : Type) where
  id : Nat
  center : Vector2 F
  radius : F
  velocity : Vector2 F
  mass : Mass F
  movable : Bool

/-- The struct `Collision`. -/
structure Collision (F : Type) where
  ids : Nat × Nat
  position : Vector2 F
  normal : Vector2 F
  resolution : Vector2 F × Vector2 F

/-- The struct `PhysicsDef::Impulse` (its header is not among the sources): a scalar
magnitude and the direction it is applied in, in the order `getImpulses` initialises them. -/
structure Impulse (F : Type) where
  magnitude : F
  direction : Vector2 F

namespace Mine

variable {F : Type} [LinearOrderedField F]

/-- The rigid body of a mine: `Mine::Mine` passes the mass
`std::numeric_limits<float>::infinity()` and the movable flag `false` to its base class. -/
def body (id : Nat) (position : Vector2 F) (size : F) : CircleRigidBody F :=
  { id := id, center := position, radius := size, velocity := 0,
    mass := Mass.infinity, movable := false }

end Mine

namespace CollisionUtil

variable {F : Type} [LinearOrderedField F]

/-- The function `CollisionUtil::areIntersecting`. -/
def areIntersecting (sqrt : F → F) (circle_a circle_b : CircleRigidBody F) : Bool :=
  if circle_a.id = circle_b.id then false
  else
    let dist := VectorUtil.distance sqrt circle_a.center circle_b.center
    decide (dist < circle_a.radius + circle_b.radius)

/-- The local `overlap` of `CollisionUtil::getCollision`. -/
def overlap (sqrt : F → F) (circle_a circle_b : CircleRigidBody F) : F :=
  circle_a.radius + circle_b.radius - VectorUtil.distance sqrt circle_a.center circle_b.center

/-- The function `CollisionUtil::getCollision`. -/
def getCollision (sqrt : F → F) (circle_a circle_b : CircleRigidBody F) : Collision F :=
  let overlap := overlap sqrt circle_a circle_b
  let normal :=
    VectorUtil.normalize sqrt (VectorUtil.getVector circle_b.center circle_a.center)
  let resolution : Vector2 F × Vector2 F :=
    if circle_a.movable && circle_b.movable then
      (normal * overlap / (2 : F), -normal * overlap / (2 : F))
    else if circle_a.movable && !circle_b.movable then
      (normal * overlap, (0 : Vector2 F))
    else if !circle_a.movable && circle_b.movable then
      ((0 : Vector2 F), -normal * overlap / (2 : F))
    else
      ((0 : Vector2 F), (0 : Vector2 F))
  let collision_point :=
    VectorUtil.getMidpoint (circle_a.center + resolution.1) (circle_b.center + resolution.2)
  { ids := (circle_a.id, circle_b.id)
    position := collision_point
    normal := normal
    resolution := resolution }

/-- The parameter `sqrt` is a square root: on every non-negative argument it returns the
non-negative root. -/
def IsSqrt (sqrt : F → F) : Prop := ∀ x : F, 0 ≤ x → 0 ≤ sqrt x ∧ sqrt x * sqrt x = x

/-- A square root on the rationals, exact on the square of a rational (elsewhere the integer
roots of numerator and denominator), to run the model on rational inputs. -/
def sqrtQ (q : ℚ) : ℚ := (Nat.sqrt q.num.natAbs : ℚ) / (Nat.sqrt q.den : ℚ)

/-- A movable circle of radius 1 centred at the origin. -/
def movableAtOrigin : CircleRigidBody ℚ :=
  { id := 1, center := ⟨0, 0⟩, radius := 1, velocity := 0, mass := Mass.finite 1,
    movable := true }

/-- A movable circle of radius 1 centred at `(1, 0)`. -/
def movableAtOne : CircleRigidBody ℚ :=
  { id := 2, center := ⟨1, 0⟩, radius := 1, velocity := 0, mass := Mass.finite 1,
    movable := true }

/-- A mine of radius 1 centred at the origin. -/
def mineAtOrigin : CircleRigidBody ℚ := Mine.body 3 ⟨0, 0⟩ 1

/-- The value of a `float` quotient `1 / mass`: a finite number or `+infinity`. -/
inductive Reciprocal (F : Type) where
  | finite (x : F)
  | infinite

/-- The quotient `1 / mass` of `getImpulses`: `0` when the mass is infinite, `+infinity` when
the mass is zero (`1 / 0.f`), and the field's quotient otherwise. -/
def reciprocal : Mass F → Reciprocal F
  | Mass.finite m => if m = 0 then Reciprocal.infinite else Reciprocal.finite (1 / m)
  | Mass.infinity => Reciprocal.finite 0

/-- The sum `1 / massA + 1 / massB` of `getImpulses`: `+infinity` as soon as one summand
is. -/
def reciprocalSum : Reciprocal F → Reciprocal F → Reciprocal F
  | Reciprocal.finite a, Reciprocal.finite b => Reciprocal.finite (a + b)
  | _, _ => Reciprocal.infinite

/-- The quotient of the finite numerator of `getImpulses` by the sum of the reciprocals: `0`
when the sum is `+infinity`, the field's quotient when it is finite. -/
def divideBy (numerator : F) : Reciprocal F → F
  | Reciprocal.finite d => numerator / d
  | Reciprocal.infinite => 0

/-- The function `CollisionUtil::getImpulses`. -/
def getImpulses (circle_a circle_b : CircleRigidBody F) (collision : Collision F) :
    Impulse F × Impulse F :=
  let relative_velocity := circle_a.velocity - circle_b.velocity
  let impulse := divideBy (-2 * VectorUtil.dot relative_velocity collision.normal)
    (reciprocalSum (reciprocal circle_a.mass) (reciprocal circle_b.mass))
  ({ magnitude := impulse, direction := collision.normal },
    { magnitude := impulse, direction := -collision.normal })

/-- A movable circle of radius 1 and mass 2 at the origin, moving with velocity `(3, 0)`. -/
def movingAtOrigin : CircleRigidBody ℚ :=
  { id := 1, center := ⟨0, 0⟩, radius := 1, velocity := ⟨3, 0⟩, mass := Mass.finite 2,
    movable := true }

/-- A movable circle of radius 1 and mass 2 at `(1, 0)`, moving with velocity `(-1, 0)`. -/
def movingAtOne : CircleRigidBody ℚ :=
  { id := 2, center := ⟨1, 0⟩, radius := 1, velocity := ⟨-1, 0⟩, mass := Mass.finite 2,
    movable := true }

/-- A mine of radius 1 centred at `(1, 0)`. -/
def mineAtOne : CircleRigidBody ℚ := Mine.body 3 ⟨1, 0⟩ 1

/-- A movable circle of mass 1 at rest, for the scenarios. -/
def movableCircle (id : Nat) (x y r : F) : CircleRigidBody F :=
  { id := id, center := ⟨x, y⟩, radius := r, velocity := 0, mass := Mass.finite 1,
    movable := true }

end CollisionUtil

/-! ## GameController

`GameController.hpp` and `game_settings.hpp` are not among the sources: `MIN_TIME_STEP` is a
parameter, the time accumulator and the elapsed time are unbounded integers, and the member
functions that `GameController.cpp` calls without defining them are the fields of `Hooks`
and `ApplyHooks`. -/

/-- The members of a `GameController` that `update` and `applyGameState` act on: the time
accumulator, the elapsed simulation time, the tick, and the rest (`G`: the object store, the
sub-controllers and the physics). -/
structure GameController (G : Type) where
  mTimeAccumulator : Int
  mElapsedTime : Int
  mTick : Nat
  objects : G

/-- What `getGameState` assembles and `applyGameState` consumes:
`{tick, group_updates, mine_updates, player_updates, gcu}`. -/
structure GameState (GU MU PU GCU : Type) where
  tick : Nat
  group_updates : List GU
  mine_updates : List MU
  player_updates : List PU
  gcu : GCU

/-- The struct `Collision` as `collisionEvent` reads it: besides the members that
`getCollision` fills, a member `direction`. -/
structure EventCollision (F : Type) extends Collision F where
  direction : Vector2 F

/-- The enumeration `GameObjectType` returned by `IdFactory::getType`. -/
inductive GameObjectType where
  | group
  | player
  | mine
deriving DecidableEq

/-- An event with its type tag: a `CollisionEvent` (`EVENT_TYPE_COLLISION`) carrying its
collision, or a `ClientConnectedEvent` (`EVENT_TYPE_CLIENT_CONNECTED`) carrying the client
id. -/
inductive Event (F : Type) where
  | collision (c : EventCollision F)
  | clientConnected (client_id : Nat)

namespace GameController

variable {G CI GU MU PU GCU : Type}

/-- The member functions that `update` calls and `GameController.cpp` does not define:
`collectInputs`, the pure virtual `step(cis, delta)`, which acts on the tick and the objects,
and `setNetworkState`. -/
structure Hooks (G CI : Type) where
  collectInputs : G → CI × G
  step : CI → Int → Nat × G → Nat × G
  setNetworkState : G → G

/-- The `while` loop of `GameController::update`. `fuel` bounds the number of evaluations of
the loop condition; the result is the controller after the loop and the number of calls of
`step`, counted from `n`. -/
def updateLoop (h : Hooks G CI) (MIN_TIME_STEP : Int) (cis : CI) :
    Nat → GameController G → Nat → Option (GameController G × Nat)
  | 0, _, _ => none
  | fuel + 1, gc, n =>
    if gc.mTimeAccumulator ≥ MIN_TIME_STEP then
      let r := h.step cis MIN_TIME_STEP (gc.mTick, gc.objects)
      updateLoop h MIN_TIME_STEP cis fuel
        { mTimeAccumulator := gc.mTimeAccumulator - MIN_TIME_STEP
          mElapsedTime := gc.mElapsedTime + MIN_TIME_STEP
          mTick := r.1
          objects := r.2 } (n + 1)
    else some (gc, n)

/-- The function `GameController::update`; `frame_time` is the value of
`mClock.restart().asMilliseconds()`. The result is the controller after the call and the
number of calls of `step`. -/
def update (h : Hooks G CI) (MIN_TIME_STEP : Int) (fuel : Nat) (frame_time : Int)
    (gc : GameController G) : Option (GameController G × Nat) :=
  let c := h.collectInputs gc.objects
  let gc1 : GameController G :=
    { gc with mTimeAccumulator := gc.mTimeAccumulator + frame_time, objects := c.2 }
  match updateLoop h MIN_TIME_STEP c.1 fuel gc1 0 with
  | none => none
  | some (gc2, n) => some ({ gc2 with objects := h.setNetworkState gc2.objects }, n)

/-- Successive calls of `update`, one for each measured frame time; the result is the final
controller and the total number of calls of `step`, counted from `n`. -/
def runFrames (h : Hooks G CI) (MIN_TIME_STEP : Int) (fuel : Nat) :
    List Int → GameController G → Nat → Option (GameController G × Nat)
  | [], gc, n => some (gc, n)
  | frame_time :: rest, gc, n =>
    match update h MIN_TIME_STEP fuel frame_time gc with
    | none => none
    | some (gc1, k) => runFrames h MIN_TIME_STEP fuel rest gc1 (n + k)

/-- The `applyUpdate` calls that `applyGameState` makes on the groups, mines and players of
the object store and on the group controller. -/
structure ApplyHooks (G GU MU PU GCU : Type) where
  applyGroupUpdate : G → GU → G
  applyMineUpdate : G → MU → G
  applyPlayerUpdate : G → PU → G
  applyControllerUpdate : G → GCU → G

/-- Modelled from the spec: `GameController::setTick` (declared in GameController.hpp, which
is not among the sources) overwrites the local tick. -/
def setTick (gc : GameController G) (tick : Nat) : GameController G :=
  { gc with mTick := tick }

/-- The function `GameController::applyGameState`; the cast
`static_cast<unsigned int>(game_state.tick)` is the reduction modulo `2^32`. -/
def applyGameState (h : ApplyHooks G GU MU PU GCU) (gc : GameController G)
    (game_state : GameState GU MU PU GCU) : GameController G :=
  let gc1 := setTick gc (game_state.tick % U32_MOD)
  let o1 := game_state.group_updates.foldl h.applyGroupUpdate gc1.objects
  let o2 := game_state.mine_updates.foldl h.applyMineUpdate o1
  let o3 := game_state.player_updates.foldl h.applyPlayerUpdate o2
  { gc1 with objects := h.applyControllerUpdate o3 game_state.gcu }

/-- The function `GameController::collisionEvent`: the calls of `applyForce` it makes, in
order, each as the id of the group and the force; `getType` is `IdFactory::getType`. -/
def collisionEvent {F : Type} [LinearOrderedField F] (getType : Nat → GameObjectType)
    (event : Event F) : List (Nat × Vector2 F) :=
  match event with
  | Event.collision collision =>
    (if getType collision.ids.1 = GameObjectType.group then
        [(collision.ids.1, collision.direction * (-30 : F))] else []) ++
    (if getType collision.ids.2 = GameObjectType.group then
        [(collision.ids.2, collision.direction * (10 : F))] else [])
  | Event.clientConnected _ => []

/-- Hooks for running the loop on its own: no inputs, and a step that increments the tick and
the one counter that stands for the objects. -/
def countingHooks : Hooks Nat Unit :=
  { collectInputs := fun g => ((), g)
    step := fun _ _ s => (s.1 + 1, s.2 + 1)
    setNetworkState := fun g => g }

/-- Hooks for applying a snapshot whose update records are left out. -/
def noUpdates : ApplyHooks Unit Unit Unit Unit Unit :=
  { applyGroupUpdate := fun g _ => g
    applyMineUpdate := fun g _ => g
    applyPlayerUpdate := fun g _ => g
    applyControllerUpdate := fun g _ => g }

end GameController

/-! ## Lemmas on 32-bit arithmetic -/

theorem u32add_of_le {a b : Nat} (h : a + b ≤ UINT32_MAX) : u32add a b = a + b := by
  simp only [u32add, U32_MOD, UINT32_MAX] at *
  omega

theorem u32sub_of_le {a b : Nat} (hb : b ≤ a) (ha : a ≤ UINT32_MAX) : u32sub a b = a - b := by
  simp only [u32sub, U32_MOD, UINT32_MAX] at *
  omega

/-- The saturation guard of `add`, in exact arithmetic. -/
theorem add_count_eq {c n : Nat} (hc : c ≤ UINT32_MAX) (hn : n ≤ UINT32_MAX) :
    (if c > u32sub UINT32_MAX n then u32sub UINT32_MAX c else n) = min (c + n) UINT32_MAX - c := by
  rw [u32sub_of_le hn (le_refl _), u32sub_of_le hc (le_refl _)]
  split <;> omega

/-- The clamp of `subtract`, in exact arithmetic. -/
theorem subtract_count_eq (c n : Nat) : (if c < n then c else n) = min c n := by
  split <;> omega

/-! ## Lemmas on the association list -/

namespace ResourceController

variable {N : Nat}

theorem count_append_single (L : Ledger N) (id k : Nat) (c : Counts N) :
    count (L ++ [(k, c)]) id = if count L id = 0 then (if k = id then 1 else 0) else count L id := by
  induction L with
  | nil => simp [count]
  | cons e rest ih =>
    obtain ⟨k0, c0⟩ := e
    by_cases h : k0 = id
    · simp [count, h]
    · simp [count, h, ih]

theorem lookup_append_zeros (L : Ledger N) (id k : Nat) :
    lookup (L ++ [(k, zeros)]) id = lookup L id := by
  induction L with
  | nil => by_cases h : k = id <;> simp [lookup, h]
  | cons e rest ih =>
    obtain ⟨k0, c0⟩ := e
    by_cases h : k0 = id
    · simp [lookup, h]
    · simp [lookup, h, ih]

theorem count_init_self (L : Ledger N) (id : Nat) : count (init L id) id ≠ 0 := by
  unfold init
  split
  · rename_i h
    rw [count_append_single]
    simp [h]
  · assumption

theorem init_of_count_ne_zero {L : Ledger N} {id : Nat} (h : count L id ≠ 0) :
    init L id = L := by
  simp [init, h]

theorem init_init (L : Ledger N) (id : Nat) : init (init L id) id = init L id :=
  init_of_count_ne_zero (count_init_self L id)

theorem count_init_other (L : Ledger N) (id k : Nat) (h : count L k ≠ 0) :
    count (init L id) k ≠ 0 := by
  unfold init
  split
  · rw [count_append_single]
    simp [h]
  · exact h

theorem lookup_init (L : Ledger N) (id k : Nat) : lookup (init L id) k = lookup L k := by
  unfold init
  split
  · exact lookup_append_zeros L k id
  · rfl

theorem balance_init (L : Ledger N) (id k : Nat) (t : Fin N) :
    balance (init L id) k t = balance L k t := by
  simp [balance, lookup_init]

theorem total_init (L : Ledger N) (id : Nat) (t : Fin N) : total (init L id) t = total L t := by
  unfold init
  split <;> simp [total, zeros]

theorem lookup_assign_self (L : Ledger N) (id : Nat) (t : Fin N) (v : Nat) :
    lookup (assign L id t v) id = Function.update (lookup L id) t v := by
  induction L with
  | nil => simp [assign, lookup]
  | cons e rest ih =>
    obtain ⟨k0, c0⟩ := e
    by_cases h : k0 = id
    · simp [assign, lookup, h]
    · simp [assign, lookup, h, ih]

theorem lookup_assign_other (L : Ledger N) {id k : Nat} (hk : k ≠ id) (t : Fin N) (v : Nat) :
    lookup (assign L id t v) k = lookup L k := by
  induction L with
  | nil => simp [assign, lookup, Ne.symm hk]
  | cons e rest ih =>
    obtain ⟨k0, c0⟩ := e
    by_cases h : k0 = id
    · subst h
      simp [assign, lookup, Ne.symm hk]
    · by_cases h2 : k0 = k
      · subst h2
        simp [assign, lookup, h]
      · simp [assign, lookup, h, h2, ih]

theorem count_assign (L : Ledger N) (id k : Nat) (t : Fin N) (v : Nat) (h : count L k ≠ 0) :
    count (assign L id t v) k ≠ 0 := by
  induction L with
  | nil => simp [count] at h
  | cons e rest ih =>
    obtain ⟨k0, c0⟩ := e
    by_cases h1 : k0 = id
    · by_cases h2 : k0 = k
      · simp [assign, count, h1, h2]
        simp [← h1, h2]
      · simp only [count, h2, if_false] at h
        simp [assign, count, h1]
        rw [← h1]
        simp [h2, h]
    · by_cases h2 : k0 = k
      · subst h2
        simp [assign, count, h1]
      · simp only [count, h2, if_false] at h
        simp [assign, count, h1, h2, ih h]

theorem balance_assign (L : Ledger N) (id k : Nat) (t u : Fin N) (v : Nat) :
    balance (assign L id t v) k u = if k = id ∧ u = t then v else balance L k u := by
  unfold balance
  by_cases hk : k = id
  · subst hk
    rw [lookup_assign_self]
    by_cases hu : u = t
    · subst hu
      simp
    · simp [hu, Function.update_noteq hu]
  · rw [lookup_assign_other L hk]
    simp [hk]

/-- Overwriting one counter changes the total of its type by the difference. -/
theorem total_assign (L : Ledger N) (id : Nat) (t : Fin N) (v : Nat) :
    total (assign L id t v) t + lookup L id t = total L t + v := by
  induction L with
  | nil => simp [assign, total, lookup, zeros]
  | cons e rest ih =>
    obtain ⟨k0, c0⟩ := e
    by_cases h : k0 = id
    · simp [assign, lookup, h, total]
      omega
    · simp only [assign, lookup, h, if_false]
      simp only [total, List.map_cons, List.sum_cons] at ih ⊢
      omega

theorem total_assign_other (L : Ledger N) (id : Nat) {t u : Fin N} (hu : u ≠ t) (v : Nat) :
    total (assign L id t v) u = total L u := by
  induction L with
  | nil => simp [assign, total, zeros, Function.update_noteq hu]
  | cons e rest ih =>
    obtain ⟨k0, c0⟩ := e
    by_cases h : k0 = id
    · simp [assign, h, total, Function.update_noteq hu]
    · simp only [assign, h, if_false]
      simp only [total, List.map_cons, List.sum_cons] at ih ⊢
      omega

theorem assign_lookup_self (L : Ledger N) (id : Nat) (t : Fin N) (h : count L id ≠ 0) :
    assign L id t (lookup L id t) = L := by
  induction L with
  | nil => simp [count] at h
  | cons e rest ih =>
    obtain ⟨k0, c0⟩ := e
    by_cases h1 : k0 = id
    · simp [assign, lookup, h1]
    · simp only [count, h1, if_false] at h
      simp [assign, lookup, h1, ih h]

theorem assign_assign (L : Ledger N) (id : Nat) (t : Fin N) (v w : Nat) (h : count L id ≠ 0) :
    assign (assign L id t v) id t w = assign L id t w := by
  induction L with
  | nil => simp [count] at h
  | cons e rest ih =>
    obtain ⟨k0, c0⟩ := e
    by_cases h1 : k0 = id
    · simp [assign, h1]
    · simp only [count, h1, if_false] at h
      simp [assign, h1, ih h]

theorem lookup_le_of_WF {L : Ledger N} (hL : WF L) (id : Nat) (t : Fin N) :
    lookup L id t ≤ UINT32_MAX := by
  induction L with
  | nil => simp [lookup, zeros]
  | cons e rest ih =>
    obtain ⟨k0, c0⟩ := e
    have hrest : WF rest := fun e he => hL e (List.mem_cons_of_mem _ he)
    by_cases h : k0 = id
    · simpa [lookup, h] using hL (k0, c0) (List.mem_cons_self _ _) t
    · simpa [lookup, h] using ih hrest

theorem WF_init {L : Ledger N} (hL : WF L) (id : Nat) : WF (init L id) := by
  unfold init
  split
  · intro e he t
    rcases List.mem_append.1 he with h | h
    · exact hL e h t
    · simp at h
      subst h
      simp [zeros]
  · exact hL

theorem WF_assign {L : Ledger N} (hL : WF L) (id : Nat) (t : Fin N) {v : Nat}
    (hv : v ≤ UINT32_MAX) : WF (assign L id t v) := by
  induction L with
  | nil =>
    intro e he u
    simp [assign] at he
    subst he
    by_cases hu : u = t
    · subst hu
      simpa using hv
    · simp [Function.update_noteq hu, zeros]
  | cons e rest ih =>
    obtain ⟨k0, c0⟩ := e
    have hrest : WF rest := fun e he => hL e (List.mem_cons_of_mem _ he)
    have hhead := hL (k0, c0) (List.mem_cons_self _ _)
    by_cases h : k0 = id
    · intro e he u
      simp only [assign, h, if_true, List.mem_cons] at he
      rcases he with he | he
      · subst he
        by_cases hu : u = t
        · subst hu
          simpa using hv
        · simpa [Function.update_noteq hu] using hhead u
      · exact hrest e he u
    · intro e he u
      simp only [assign, h, if_false, List.mem_cons] at he
      rcases he with he | he
      · subst he
        exact hhead u
      · exact ih hrest e he u

theorem sampleLedger_WF : WF sampleLedger := by
  intro e he t
  simp only [sampleLedger, List.mem_cons, List.mem_singleton, List.not_mem_nil, or_false] at he
  rcases he with he | he <;> subst he <;> fin_cases t <;> simp [UINT32_MAX]

/-- What `add` computes, in exact arithmetic. -/
theorem add_eq {L : Ledger N} (hL : WF L) (id : Nat) (t : Fin N) {n : Nat}
    (hn : n ≤ UINT32_MAX) :
    add L id t n =
      ((min (balance L id t + n) UINT32_MAX - balance L id t,
          min (balance L id t + n) UINT32_MAX),
        assign (init L id) id t (min (balance L id t + n) UINT32_MAX)) := by
  have hc := lookup_le_of_WF hL id t
  have h1 : lookup L id t + (min (lookup L id t + n) UINT32_MAX - lookup L id t)
      = min (lookup L id t + n) UINT32_MAX := by omega
  simp only [add, lookup_init, balance]
  rw [add_count_eq hc hn, u32add_of_le (by omega), h1]

/-- What `subtract` computes, in exact arithmetic. -/
theorem subtract_eq {L : Ledger N} (hL : WF L) (id : Nat) (t : Fin N) (n : Nat) :
    subtract L id t n =
      ((min (balance L id t) n, balance L id t - min (balance L id t) n),
        assign (init L id) id t (balance L id t - min (balance L id t) n)) := by
  have hc := lookup_le_of_WF hL id t
  simp only [subtract, lookup_init, balance, subtract_count_eq]
  rw [u32sub_of_le (Nat.min_le_left _ _) hc]

theorem afterDebit_WF {L : Ledger N} (hL : WF L) (src dst : Nat) (t : Fin N) (n : Nat) :
    WF (afterDebit L src dst t n) := by
  have hc := lookup_le_of_WF hL src t
  exact WF_assign (WF_init (WF_init hL dst) src) src t (by unfold balance; omega)

theorem afterDebit_count_dst (L : Ledger N) (src dst : Nat) (t : Fin N) (n : Nat) :
    count (afterDebit L src dst t n) dst ≠ 0 :=
  count_assign _ _ _ _ _ (count_init_other _ _ _ (count_init_self L dst))

theorem afterDebit_balance (L : Ledger N) (src dst : Nat) (t : Fin N) (n : Nat) (k : Nat)
    (u : Fin N) :
    balance (afterDebit L src dst t n) k u =
      if k = src ∧ u = t then balance L src t - min (balance L src t) n else balance L k u := by
  simp [afterDebit, balance_assign, balance_init]

theorem afterDebit_total (L : Ledger N) (src dst : Nat) (t : Fin N) (n : Nat) :
    total (afterDebit L src dst t n) t + min (balance L src t) n = total L t := by
  have h := total_assign (init (init L dst) src) src t (balance L src t - min (balance L src t) n)
  rw [lookup_init, lookup_init, total_init, total_init] at h
  unfold afterDebit
  unfold balance at *
  omega

/-- What `move` computes, in exact arithmetic: `r` is the receiver's balance once the
sender has been debited. -/
theorem move_eq {L : Ledger N} (hL : WF L) (src dst : Nat) (t : Fin N) (n : Nat) :
    move L src dst t n =
      ((min (balance L src t) n, balance L src t - min (balance L src t) n,
          min (balance (afterDebit L src dst t n) dst t + min (balance L src t) n) UINT32_MAX
            - balance (afterDebit L src dst t n) dst t,
          min (balance (afterDebit L src dst t n) dst t + min (balance L src t) n) UINT32_MAX),
        assign (afterDebit L src dst t n) dst t
          (min (balance (afterDebit L src dst t n) dst t + min (balance L src t) n)
            UINT32_MAX)) := by
  have hc := lookup_le_of_WF hL src t
  have hL2 : WF (init (init L dst) src) := WF_init (WF_init hL dst) src
  have hsub := subtract_eq hL2 src t n
  rw [init_init, balance_init, balance_init] at hsub
  have hadd := add_eq (afterDebit_WF hL src dst t n) dst t
    (show min (balance L src t) n ≤ UINT32_MAX by unfold balance; omega)
  rw [init_of_count_ne_zero (afterDebit_count_dst L src dst t n)] at hadd
  unfold move
  simp only [hsub]
  unfold afterDebit at hadd ⊢
  simp only [hadd]

/-! ## The ledger claims -/

/-- C1: `add` saturates and never wraps. With `c` the current balance (a `uint32_t`), the
returned new total is `min (c + count) (2^32 - 1)` in exact arithmetic, the applied delta is
`newTotal - c` and is at most `count`, and the stored balance afterwards is the new total. -/
theorem add_saturates (L : Ledger N) (id : Nat) (t : Fin N) (cnt : Nat)
    (hL : WF L) (hcnt : cnt ≤ UINT32_MAX) :
    (add L id t cnt).1.2 = min (balance L id t + cnt) UINT32_MAX ∧
    (add L id t cnt).1.1 = (add L id t cnt).1.2 - balance L id t ∧
    balance L id t + (add L id t cnt).1.1 = (add L id t cnt).1.2 ∧
    (add L id t cnt).1.1 ≤ cnt ∧
    (add L id t cnt).1.2 ≤ UINT32_MAX ∧
    balance (add L id t cnt).2 id t = (add L id t cnt).1.2 := by
  have hc : balance L id t ≤ UINT32_MAX := lookup_le_of_WF hL id t
  rw [add_eq hL id t hcnt]
  refine ⟨rfl, rfl, ?_, ?_, ?_, ?_⟩
  · dsimp only
    omega
  · dsimp only
    omega
  · exact Nat.min_le_right _ _
  · simp [balance_assign]

theorem add_saturates_witness :
    WF sampleLedger ∧ 10 ≤ UINT32_MAX ∧
    ((add sampleLedger 7 0 10).1.2 = min (balance sampleLedger 7 0 + 10) UINT32_MAX ∧
    (add sampleLedger 7 0 10).1.1 = (add sampleLedger 7 0 10).1.2 - balance sampleLedger 7 0 ∧
    balance sampleLedger 7 0 + (add sampleLedger 7 0 10).1.1 = (add sampleLedger 7 0 10).1.2 ∧
    (add sampleLedger 7 0 10).1.1 ≤ 10 ∧
    (add sampleLedger 7 0 10).1.2 ≤ UINT32_MAX ∧
    balance (add sampleLedger 7 0 10).2 7 0 = (add sampleLedger 7 0 10).1.2) :=
  ⟨sampleLedger_WF, by decide, add_saturates sampleLedger 7 0 10 sampleLedger_WF (by decide)⟩

/-- C2: `subtract` saturates at zero and never underflows. With `c` the current balance, the
applied delta is `min c count`, the new total is `c - appliedDelta` (zero whenever
`count ≥ c`), and the stored balance afterwards is the new total. -/
theorem subtract_saturates (L : Ledger N) (id : Nat) (t : Fin N) (cnt : Nat) (hL : WF L) :
    (subtract L id t cnt).1.1 = min (balance L id t) cnt ∧
    (subtract L id t cnt).1.2 = balance L id t - (subtract L id t cnt).1.1 ∧
    (subtract L id t cnt).1.2 + (subtract L id t cnt).1.1 = balance L id t ∧
    (balance L id t ≤ cnt → (subtract L id t cnt).1.2 = 0) ∧
    balance (subtract L id t cnt).2 id t = (subtract L id t cnt).1.2 := by
  rw [subtract_eq hL id t cnt]
  refine ⟨rfl, rfl, ?_, ?_, ?_⟩
  · dsimp only
    omega
  · intro h
    dsimp only
    omega
  · simp [balance_assign]

theorem subtract_saturates_witness :
    WF sampleLedger ∧
    ((subtract sampleLedger 9 0 8).1.1 = min (balance sampleLedger 9 0) 8 ∧
    (subtract sampleLedger 9 0 8).1.2
      = balance sampleLedger 9 0 - (subtract sampleLedger 9 0 8).1.1 ∧
    (subtract sampleLedger 9 0 8).1.2 + (subtract sampleLedger 9 0 8).1.1
      = balance sampleLedger 9 0 ∧
    (balance sampleLedger 9 0 ≤ 8 → (subtract sampleLedger 9 0 8).1.2 = 0) ∧
    balance (subtract sampleLedger 9 0 8).2 9 0 = (subtract sampleLedger 9 0 8).1.2) :=
  ⟨sampleLedger_WF, subtract_saturates sampleLedger 9 0 8 sampleLedger_WF⟩

/-- C3, as stated, fails: entity 9 holds 5 units of type 0 and sends all 5 to entity 7, whose
balance is 3 below the maximum. The sender loses 5, the receiver gains only 2 and the total
of type 0 drops by 3. -/
theorem move_conservation_counterexample :
    WF sampleLedger ∧ 5 ≤ balance sampleLedger 9 0 ∧
    balance sampleLedger 9 0 - balance (move sampleLedger 9 7 0 5).2 9 0 = 5 ∧
    balance (move sampleLedger 9 7 0 5).2 7 0 - balance sampleLedger 7 0 = 2 ∧
    ¬ (((balance (move sampleLedger 9 7 0 5).2 7 0 : Int) - balance sampleLedger 7 0
          = (balance sampleLedger 9 0 : Int) - balance (move sampleLedger 9 7 0 5).2 9 0) ∧
        total (move sampleLedger 9 7 0 5).2 0 = total sampleLedger 0) :=
  ⟨sampleLedger_WF, by decide, by decide, by decide, by decide⟩

/-- C3, amended: when the sender holds at least `n` and the receiver has room for `n`
(sender and receiver are the same entity, or the receiver's balance plus `n` is at most
`2^32 - 1`), the receiver's gain equals the sender's loss and the total of the resource type
is unchanged; for distinct entities the gain and the loss are both `n`. -/
theorem move_conservation (L : Ledger N) (src dst : Nat) (t : Fin N) (n : Nat)
    (hL : WF L) (hn : n ≤ balance L src t)
    (hroom : src = dst ∨ balance L dst t + n ≤ UINT32_MAX) :
    ((balance (move L src dst t n).2 dst t : Int) - balance L dst t
        = (balance L src t : Int) - balance (move L src dst t n).2 src t) ∧
    total (move L src dst t n).2 t = total L t ∧
    (src ≠ dst → balance (move L src dst t n).2 dst t = balance L dst t + n ∧
        balance (move L src dst t n).2 src t + n = balance L src t) := by
  have hc : balance L src t ≤ UINT32_MAX := lookup_le_of_WF hL src t
  have htot := afterDebit_total L src dst t n
  have hasg := total_assign (afterDebit L src dst t n) dst t
    (min (balance (afterDebit L src dst t n) dst t + min (balance L src t) n) UINT32_MAX)
  have hmin : min (balance L src t) n = n := Nat.min_eq_right hn
  rw [move_eq hL]
  dsimp only
  simp only [balance_assign, afterDebit_balance, hmin] at hasg ⊢
  change total _ t + balance (afterDebit L src dst t n) dst t = _ at hasg
  rw [afterDebit_balance, hmin] at hasg
  rw [hmin] at htot
  by_cases h : src = dst
  · subst h
    simp only [and_self, if_true, ne_eq, not_true_eq_false, false_implies, and_true] at hasg ⊢
    have h2 : min (balance L src t - n + n) UINT32_MAX = balance L src t := by omega
    rw [h2] at hasg ⊢
    constructor
    · omega
    · omega
  · have hd : ¬ dst = src := fun e => h e.symm
    rcases hroom with hroom | hroom
    · exact absurd hroom h
    · simp only [hd, h, false_and, if_false, and_self, if_true, true_and, ne_eq,
        not_false_eq_true, true_implies] at hasg ⊢
      have h2 : min (balance L dst t + n) UINT32_MAX = balance L dst t + n :=
        Nat.min_eq_left hroom
      rw [h2] at hasg ⊢
      refine ⟨?_, ?_, rfl, ?_⟩ <;> omega

theorem move_conservation_witness :
    WF sampleLedger ∧ 4 ≤ balance sampleLedger 9 0 ∧
    (9 = 3 ∨ balance sampleLedger 3 0 + 4 ≤ UINT32_MAX) ∧
    (((balance (move sampleLedger 9 3 0 4).2 3 0 : Int) - balance sampleLedger 3 0
        = (balance sampleLedger 9 0 : Int) - balance (move sampleLedger 9 3 0 4).2 9 0) ∧
    total (move sampleLedger 9 3 0 4).2 0 = total sampleLedger 0 ∧
    (9 ≠ 3 → balance (move sampleLedger 9 3 0 4).2 3 0 = balance sampleLedger 3 0 + 4 ∧
        balance (move sampleLedger 9 3 0 4).2 9 0 + 4 = balance sampleLedger 9 0)) :=
  ⟨sampleLedger_WF, by decide, by decide,
    move_conservation sampleLedger 9 3 0 4 sampleLedger_WF (by decide) (by decide)⟩

/-- C4, as stated, fails: moving 5 units from entity 9 to entity 7, whose balance is 3 below
the maximum, returns `subtracted = 5` and `added = 2`. -/
theorem move_added_eq_subtracted_counterexample :
    WF sampleLedger ∧ (move sampleLedger 9 7 0 5).1 = (5, 0, 2, 4294967295) ∧
    (move sampleLedger 9 7 0 5).1.2.2.1 ≠ (move sampleLedger 9 7 0 5).1.1 :=
  ⟨sampleLedger_WF, by decide, by decide⟩

/-- C4, amended: in the tuple returned by `move`, `subtracted = min senderBalance n` and
`added ≤ subtracted`; `added = subtracted` whenever the receiver does not saturate (sender and
receiver are the same entity, or the receiver's balance plus `subtracted` is at most
`2^32 - 1`), in particular also when only the sender saturates; when the receiver saturates,
`added = 2^32 - 1 - receiverBalance`. -/
theorem move_added_le_subtracted (L : Ledger N) (src dst : Nat) (t : Fin N) (n : Nat)
    (hL : WF L) :
    (move L src dst t n).1.1 = min (balance L src t) n ∧
    (move L src dst t n).1.2.2.1 ≤ (move L src dst t n).1.1 ∧
    ((src = dst ∨ balance L dst t + (move L src dst t n).1.1 ≤ UINT32_MAX) →
      (move L src dst t n).1.2.2.1 = (move L src dst t n).1.1) ∧
    (src ≠ dst → UINT32_MAX < balance L dst t + (move L src dst t n).1.1 →
      (move L src dst t n).1.2.2.1 = UINT32_MAX - balance L dst t) := by
  have hc : balance L src t ≤ UINT32_MAX := lookup_le_of_WF hL src t
  rw [move_eq hL]
  dsimp only
  simp only [afterDebit_balance]
  by_cases h : src = dst
  · subst h
    simp only [and_self, if_true, true_or, true_implies, ne_eq, not_true_eq_false,
      false_implies, and_true]
    refine ⟨trivial, ?_, ?_⟩ <;> omega
  · have hd : ¬ dst = src := fun e => h e.symm
    simp only [hd, h, false_and, if_false, false_or, ne_eq, not_false_eq_true, true_implies]
    refine ⟨trivial, ?_, ?_, ?_⟩
    · omega
    · intro h1
      omega
    · intro h1
      omega

theorem move_added_le_subtracted_witness :
    WF sampleLedger ∧
    ((move sampleLedger 9 7 0 8).1.1 = min (balance sampleLedger 9 0) 8 ∧
    (move sampleLedger 9 7 0 8).1.2.2.1 ≤ (move sampleLedger 9 7 0 8).1.1 ∧
    ((9 = 7 ∨ balance sampleLedger 7 0 + (move sampleLedger 9 7 0 8).1.1 ≤ UINT32_MAX) →
      (move sampleLedger 9 7 0 8).1.2.2.1 = (move sampleLedger 9 7 0 8).1.1) ∧
    (9 ≠ 7 → UINT32_MAX < balance sampleLedger 7 0 + (move sampleLedger 9 7 0 8).1.1 →
      (move sampleLedger 9 7 0 8).1.2.2.1 = UINT32_MAX - balance sampleLedger 7 0)) :=
  ⟨sampleLedger_WF, move_added_le_subtracted sampleLedger 9 7 0 8 sampleLedger_WF⟩

/-- C5: a move never creates resource. The total of the moved resource type over all entities
does not grow, and every balance (and hence every total) of another resource type is
unchanged. -/
theorem move_never_creates (L : Ledger N) (src dst : Nat) (t : Fin N) (n : Nat)
    (hL : WF L) :
    total (move L src dst t n).2 t ≤ total L t ∧
    (∀ (id : Nat) (u : Fin N), u ≠ t →
      balance (move L src dst t n).2 id u = balance L id u) ∧
    (∀ u : Fin N, u ≠ t → total (move L src dst t n).2 u = total L u) := by
  have htot := afterDebit_total L src dst t n
  have hasg := total_assign (afterDebit L src dst t n) dst t
    (min (balance (afterDebit L src dst t n) dst t + min (balance L src t) n) UINT32_MAX)
  change total _ t + balance (afterDebit L src dst t n) dst t = _ at hasg
  rw [move_eq hL]
  dsimp only
  refine ⟨by omega, ?_, ?_⟩
  · intro id u hu
    simp [balance_assign, afterDebit_balance, hu]
  · intro u hu
    rw [total_assign_other _ _ hu]
    unfold afterDebit
    rw [total_assign_other _ _ hu, total_init, total_init]

theorem move_never_creates_witness :
    WF sampleLedger ∧
    (total (move sampleLedger 9 7 0 5).2 0 ≤ total sampleLedger 0 ∧
    (∀ (id : Nat) (u : Fin 4), u ≠ 0 →
      balance (move sampleLedger 9 7 0 5).2 id u = balance sampleLedger id u) ∧
    (∀ u : Fin 4, u ≠ 0 → total (move sampleLedger 9 7 0 5).2 u = total sampleLedger u)) :=
  ⟨sampleLedger_WF, move_never_creates sampleLedger 9 7 0 5 sampleLedger_WF⟩

/-- C6: ledger round-trip law. When the balance `c` of `(id, t)` satisfies
`c + x ≤ 2^32 - 1`, `add id t x` followed by `subtract id t x` applies the delta `x` both
times and leaves the whole ledger equal to the ledger in which the record of `id` has been
initialised (the given ledger itself when `id` already had a record); the balance of
`(id, t)` is `c` again. -/
theorem add_subtract_roundtrip (L : Ledger N) (id : Nat) (t : Fin N) (x : Nat)
    (hL : WF L) (hx : balance L id t + x ≤ UINT32_MAX) :
    (add L id t x).1.1 = x ∧
    (subtract (add L id t x).2 id t x).1.1 = x ∧
    (subtract (add L id t x).2 id t x).2 = init L id ∧
    (count L id ≠ 0 → (subtract (add L id t x).2 id t x).2 = L) ∧
    balance (subtract (add L id t x).2 id t x).2 id t = balance L id t := by
  have hx1 : x ≤ UINT32_MAX := by omega
  have hmin : min (balance L id t + x) UINT32_MAX = balance L id t + x := Nat.min_eq_left hx
  have hcnt : count (init L id) id ≠ 0 := count_init_self L id
  have hL1 : WF (assign (init L id) id t (balance L id t + x)) :=
    WF_assign (WF_init hL id) id t hx
  have hb1 : balance (assign (init L id) id t (balance L id t + x)) id t
      = balance L id t + x := by simp [balance_assign]
  have hfin : (subtract (add L id t x).2 id t x).2 = init L id := by
    rw [add_eq hL id t hx1, hmin]
    dsimp only
    rw [subtract_eq hL1, hb1]
    dsimp only
    rw [init_of_count_ne_zero (count_assign _ _ _ _ _ hcnt), assign_assign _ _ _ _ _ hcnt]
    have h3 : balance L id t + x - min (balance L id t + x) x = lookup (init L id) id t := by
      rw [lookup_init]
      unfold balance
      omega
    rw [h3]
    exact assign_lookup_self _ _ _ hcnt
  refine ⟨?_, ?_, hfin, ?_, ?_⟩
  · rw [add_eq hL id t hx1, hmin]
    dsimp only
    omega
  · rw [add_eq hL id t hx1, hmin]
    dsimp only
    rw [subtract_eq hL1, hb1]
    dsimp only
    omega
  · intro h
    rw [hfin, init_of_count_ne_zero h]
  · rw [hfin, balance_init]

theorem add_subtract_roundtrip_witness :
    WF sampleLedger ∧ balance sampleLedger 3 2 + 6 ≤ UINT32_MAX ∧
    ((add sampleLedger 3 2 6).1.1 = 6 ∧
    (subtract (add sampleLedger 3 2 6).2 3 2 6).1.1 = 6 ∧
    (subtract (add sampleLedger 3 2 6).2 3 2 6).2 = init sampleLedger 3 ∧
    (count sampleLedger 3 ≠ 0 → (subtract (add sampleLedger 3 2 6).2 3 2 6).2 = sampleLedger) ∧
    balance (subtract (add sampleLedger 3 2 6).2 3 2 6).2 3 2 = balance sampleLedger 3 2) :=
  ⟨sampleLedger_WF, by decide,
    add_subtract_roundtrip sampleLedger 3 2 6 sampleLedger_WF (by decide)⟩

end ResourceController

end Ungroup

namespace Ungroup

/-! ## Lemmas on vectors -/

namespace Vector2

variable {F : Type} [LinearOrderedField F]

@[simp] theorem zero_x : (0 : Vector2 F).x = 0 := rfl
@[simp] theorem zero_y : (0 : Vector2 F).y = 0 := rfl
@[simp] theorem add_x (a b : Vector2 F) : (a + b).x = a.x + b.x := rfl
@[simp] theorem add_y (a b : Vector2 F) : (a + b).y = a.y + b.y := rfl
@[simp] theorem sub_x (a b : Vector2 F) : (a - b).x = a.x - b.x := rfl
@[simp] theorem sub_y (a b : Vector2 F) : (a - b).y = a.y - b.y := rfl
@[simp] theorem neg_x (a : Vector2 F) : (-a).x = -a.x := rfl
@[simp] theorem neg_y (a : Vector2 F) : (-a).y = -a.y := rfl
@[simp] theorem mul_x (a : Vector2 F) (s : F) : (a * s).x = a.x * s := rfl
@[simp] theorem mul_y (a : Vector2 F) (s : F) : (a * s).y = a.y * s := rfl
@[simp] theorem div_x (a : Vector2 F) (s : F) : (a / s).x = a.x / s := rfl
@[simp] theorem div_y (a : Vector2 F) (s : F) : (a / s).y = a.y / s := rfl

end Vector2

namespace CollisionUtil

/-- On the square of a non-negative rational, `sqrtQ` is the exact root. -/
theorem sqrtQ_mul_self (q : ℚ) (hq : 0 ≤ q) : sqrtQ (q * q) = q := by
  have hnum : 0 ≤ q.num := Rat.num_nonneg.2 hq
  unfold sqrtQ
  rw [Rat.mul_self_num, Rat.mul_self_den, Int.natAbs_mul, Nat.sqrt_eq, Nat.sqrt_eq]
  have h1 : ((q.num.natAbs : ℕ) : ℚ) = (q.num : ℚ) := by
    rw [← Int.cast_natCast, Int.natAbs_of_nonneg hnum]
  rw [h1]
  exact Rat.num_div_den q

theorem sqrtQ_one : sqrtQ 1 = 1 := by
  simpa using sqrtQ_mul_self 1 (by norm_num)

theorem sqrtQ_nine_fourths : sqrtQ (9 / 4) = 3 / 2 := by
  have h := sqrtQ_mul_self (3 / 2) (by norm_num)
  norm_num at h
  exact h

theorem sqrtQ_four : sqrtQ 4 = 2 := by
  have h := sqrtQ_mul_self 2 (by norm_num)
  norm_num at h
  exact h

/-! ## Geometry of the resolution -/

variable {F : Type} [LinearOrderedField F]

/-- The real square root is a square root in the sense of `IsSqrt`. -/
theorem isSqrt_real : IsSqrt Real.sqrt :=
  fun x hx => ⟨Real.sqrt_nonneg x, Real.mul_self_sqrt hx⟩

theorem sqrt_mul_self_of_nonneg {sqrt : F → F} (hs : IsSqrt sqrt) {y : F} (hy : 0 ≤ y) :
    sqrt (y * y) = y := by
  obtain ⟨h0, h1⟩ := hs (y * y) (mul_self_nonneg y)
  exact (mul_self_inj h0 hy).1 h1

/-- Stretching the segment from `a` to `b` by a factor `k ≥ 0` stretches its length by `k`. -/
theorem distance_of_scaled {sqrt : F → F} (hs : IsSqrt sqrt) (a b p q : Vector2 F) (k : F)
    (hk : 0 ≤ k) (hx : q.x - p.x = k * (b.x - a.x)) (hy : q.y - p.y = k * (b.y - a.y)) :
    VectorUtil.distance sqrt p q = k * VectorUtil.distance sqrt a b := by
  unfold VectorUtil.distance
  rw [hx, hy]
  have harg : 0 ≤ (b.x - a.x) * (b.x - a.x) + (b.y - a.y) * (b.y - a.y) :=
    add_nonneg (mul_self_nonneg _) (mul_self_nonneg _)
  obtain ⟨h0, h1⟩ := hs _ harg
  have h2 : k * (b.x - a.x) * (k * (b.x - a.x)) + k * (b.y - a.y) * (k * (b.y - a.y))
      = (k * sqrt ((b.x - a.x) * (b.x - a.x) + (b.y - a.y) * (b.y - a.y)))
        * (k * sqrt ((b.x - a.x) * (b.x - a.x) + (b.y - a.y) * (b.y - a.y))) := by
    have h3 : ∀ s w : F, s * s = w → k * k * w = k * s * (k * s) := by
      intro s w hsw
      rw [← hsw]
      ring
    rw [← h3 _ _ h1]
    ring
  rw [h2]
  exact sqrt_mul_self_of_nonneg hs (mul_nonneg hk h0)

/-- Distinct centres are at a positive distance. -/
theorem distance_pos_of_ne {sqrt : F → F} (hs : IsSqrt sqrt) {a b : Vector2 F} (h : a ≠ b) :
    0 < VectorUtil.distance sqrt a b := by
  unfold VectorUtil.distance
  have harg : 0 ≤ (b.x - a.x) * (b.x - a.x) + (b.y - a.y) * (b.y - a.y) :=
    add_nonneg (mul_self_nonneg _) (mul_self_nonneg _)
  obtain ⟨h0, h1⟩ := hs _ harg
  rcases lt_or_eq_of_le h0 with hlt | heq
  · exact hlt
  · exfalso
    rw [← heq, mul_zero] at h1
    have hx : (b.x - a.x) * (b.x - a.x) = 0 := by
      have := mul_self_nonneg (b.x - a.x)
      have := mul_self_nonneg (b.y - a.y)
      linarith
    have hy : (b.y - a.y) * (b.y - a.y) = 0 := by
      have := mul_self_nonneg (b.x - a.x)
      have := mul_self_nonneg (b.y - a.y)
      linarith
    have hx0 : b.x - a.x = 0 := mul_self_eq_zero.1 hx
    have hy0 : b.y - a.y = 0 := mul_self_eq_zero.1 hy
    apply h
    ext
    · linarith
    · linarith

/-- The length taken by `normalize` on the vector from B to A is the distance of A and B. -/
theorem normalize_getVector (sqrt : F → F) (a b : Vector2 F) :
    VectorUtil.normalize sqrt (VectorUtil.getVector b a)
      = (a - b) / VectorUtil.distance sqrt a b := by
  unfold VectorUtil.normalize VectorUtil.getVector VectorUtil.distance
  have h : (a - b).x * (a - b).x + (a - b).y * (a - b).y
      = (b.x - a.x) * (b.x - a.x) + (b.y - a.y) * (b.y - a.y) := by
    simp only [Vector2.sub_x, Vector2.sub_y]
    ring
  rw [h]

/-- When the first body is movable (both are, or only the first is), the moved centres are
at distance `radiusA + radiusB`: the circles are tangent. -/
theorem getCollision_tangent_of_a_movable {sqrt : F → F} (hs : IsSqrt sqrt)
    (A B : CircleRigidBody F) (hA : A.movable = true) (hc : A.center ≠ B.center)
    (ho : 0 ≤ overlap sqrt A B) :
    VectorUtil.distance sqrt (A.center + (getCollision sqrt A B).resolution.1)
      (B.center + (getCollision sqrt A B).resolution.2) = A.radius + B.radius := by
  have hd := distance_pos_of_ne hs hc
  have hd0 : VectorUtil.distance sqrt A.center B.center ≠ 0 := ne_of_gt hd
  have hk : 0 ≤ 1 + overlap sqrt A B / VectorUtil.distance sqrt A.center B.center :=
    add_nonneg zero_le_one (div_nonneg ho (le_of_lt hd))
  have hgoal : (1 + overlap sqrt A B / VectorUtil.distance sqrt A.center B.center)
      * VectorUtil.distance sqrt A.center B.center = A.radius + B.radius := by
    unfold overlap
    field_simp
  rw [← hgoal]
  apply distance_of_scaled hs _ _ _ _ _ hk
  · cases hB : B.movable <;>
      simp only [getCollision, hA, hB, normalize_getVector, Bool.and_true, Bool.and_false,
        Bool.not_true, Bool.not_false, if_true, if_false, Bool.false_eq_true,
        Vector2.add_x, Vector2.sub_x, Vector2.mul_x, Vector2.div_x, Vector2.neg_x,
        Vector2.zero_x] <;>
      field_simp <;> ring
  · cases hB : B.movable <;>
      simp only [getCollision, hA, hB, normalize_getVector, Bool.and_true, Bool.and_false,
        Bool.not_true, Bool.not_false, if_true, if_false, Bool.false_eq_true,
        Vector2.add_y, Vector2.sub_y, Vector2.mul_y, Vector2.div_y, Vector2.neg_y,
        Vector2.zero_y] <;>
      field_simp <;> ring

/-- When only the second body is movable, the moved centres are at distance
`distance + overlap / 2`: half of the overlap remains. -/
theorem getCollision_distance_of_only_b_movable {sqrt : F → F} (hs : IsSqrt sqrt)
    (A B : CircleRigidBody F) (hA : A.movable = false) (hB : B.movable = true)
    (hc : A.center ≠ B.center) (ho : 0 ≤ overlap sqrt A B) :
    VectorUtil.distance sqrt (A.center + (getCollision sqrt A B).resolution.1)
      (B.center + (getCollision sqrt A B).resolution.2)
      = VectorUtil.distance sqrt A.center B.center + overlap sqrt A B / 2 := by
  have hd := distance_pos_of_ne hs hc
  have hd0 : VectorUtil.distance sqrt A.center B.center ≠ 0 := ne_of_gt hd
  have hk : 0 ≤ 1 + overlap sqrt A B / 2 / VectorUtil.distance sqrt A.center B.center :=
    add_nonneg zero_le_one (div_nonneg (div_nonneg ho zero_le_two) (le_of_lt hd))
  have hgoal : (1 + overlap sqrt A B / 2 / VectorUtil.distance sqrt A.center B.center)
      * VectorUtil.distance sqrt A.center B.center
      = VectorUtil.distance sqrt A.center B.center + overlap sqrt A B / 2 := by
    field_simp
    ring
  rw [← hgoal]
  apply distance_of_scaled hs _ _ _ _ _ hk
  · simp only [getCollision, hA, hB, normalize_getVector, Bool.and_true, Bool.and_false,
      Bool.not_true, Bool.not_false, if_true, if_false, Bool.false_eq_true,
      Bool.false_and, Vector2.add_x, Vector2.sub_x, Vector2.mul_x, Vector2.div_x,
      Vector2.neg_x, Vector2.zero_x]
    field_simp
    ring
  · simp only [getCollision, hA, hB, normalize_getVector, Bool.and_true, Bool.and_false,
      Bool.not_true, Bool.not_false, if_true, if_false, Bool.false_eq_true,
      Bool.false_and, Vector2.add_y, Vector2.sub_y, Vector2.mul_y, Vector2.div_y,
      Vector2.neg_y, Vector2.zero_y]
    field_simp
    ring

/-! ## The collision claims -/

/-- C7: `areIntersecting` is false whenever the two bodies have the same id; for bodies with
different ids it is true exactly when the distance of the centres is strictly less than the
sum of the radii, so circles that touch exactly (distance equal to the sum of the radii) do
not intersect. -/
theorem areIntersecting_iff (sqrt : F → F) (A B : CircleRigidBody F) :
    (A.id = B.id → areIntersecting sqrt A B = false) ∧
    (A.id ≠ B.id → (areIntersecting sqrt A B = true ↔
      VectorUtil.distance sqrt A.center B.center < A.radius + B.radius)) ∧
    (VectorUtil.distance sqrt A.center B.center = A.radius + B.radius →
      areIntersecting sqrt A B = false) := by
  refine ⟨?_, ?_, ?_⟩
  · intro h
    simp [areIntersecting, h]
  · intro h
    simp [areIntersecting, h]
  · intro h
    by_cases hid : A.id = B.id
    · simp [areIntersecting, hid]
    · simp [areIntersecting, hid, h]

/-- C8: resolution conservation. For two movable bodies with distinct centres the two
resolution vectors of `getCollision` are opposite, `resolution.first = -resolution.second`,
the first being `normal * overlap / 2`, and they have the same magnitude. -/
theorem getCollision_resolution_opposite (sqrt : F → F) (A B : CircleRigidBody F)
    (hA : A.movable = true) (hB : B.movable = true) (_hc : A.center ≠ B.center) :
    (getCollision sqrt A B).resolution.1 = -(getCollision sqrt A B).resolution.2 ∧
    (getCollision sqrt A B).resolution.1
      = (getCollision sqrt A B).normal * overlap sqrt A B / (2 : F) ∧
    VectorUtil.distance sqrt 0 (getCollision sqrt A B).resolution.1
      = VectorUtil.distance sqrt 0 (getCollision sqrt A B).resolution.2 := by
  refine ⟨?_, ?_, ?_⟩
  · simp only [getCollision, hA, hB, Bool.and_self, if_true]
    ext <;> simp <;> ring
  · simp [getCollision, hA, hB]
  · simp only [getCollision, hA, hB, Bool.and_self, if_true, VectorUtil.distance]
    congr 1
    simp
    ring

theorem getCollision_resolution_opposite_witness :
    movableAtOrigin.movable = true ∧ movableAtOne.movable = true ∧
    movableAtOrigin.center ≠ movableAtOne.center ∧
    ((getCollision sqrtQ movableAtOrigin movableAtOne).resolution.1
      = -(getCollision sqrtQ movableAtOrigin movableAtOne).resolution.2 ∧
    (getCollision sqrtQ movableAtOrigin movableAtOne).resolution.1
      = (getCollision sqrtQ movableAtOrigin movableAtOne).normal
          * overlap sqrtQ movableAtOrigin movableAtOne / (2 : ℚ) ∧
    VectorUtil.distance sqrtQ 0 (getCollision sqrtQ movableAtOrigin movableAtOne).resolution.1
      = VectorUtil.distance sqrtQ 0
          (getCollision sqrtQ movableAtOrigin movableAtOne).resolution.2) :=
  ⟨rfl, rfl, by simp [movableAtOrigin, movableAtOne],
    getCollision_resolution_opposite sqrtQ movableAtOrigin movableAtOne rfl rfl
      (by simp [movableAtOrigin, movableAtOne])⟩

/-- C9: immovable invariant. In the result of `getCollision` the resolution vector of a body
that is not movable is the zero vector, whatever the other body is; when neither body is
movable both are zero. The body of a mine (infinite mass, not movable) is such a body. -/
theorem getCollision_immovable_zero (sqrt : F → F) (A B : CircleRigidBody F) :
    (A.movable = false → (getCollision sqrt A B).resolution.1 = 0) ∧
    (B.movable = false → (getCollision sqrt A B).resolution.2 = 0) ∧
    (A.movable = false → B.movable = false → (getCollision sqrt A B).resolution = (0, 0)) ∧
    (∀ (id : Nat) (position : Vector2 F) (size : F),
      (Mine.body id position size).mass = Mass.infinity ∧
      (getCollision sqrt (Mine.body id position size) B).resolution.1 = 0 ∧
      (getCollision sqrt A (Mine.body id position size)).resolution.2 = 0) := by
  refine ⟨?_, ?_, ?_, ?_⟩
  · intro h
    cases hB : B.movable <;> simp [getCollision, h, hB]
  · intro h
    cases hA : A.movable <;> simp [getCollision, h, hA]
  · intro hA hB
    simp [getCollision, hA, hB]
  · intro id position size
    refine ⟨rfl, ?_, ?_⟩
    · cases hB : B.movable <;> simp [getCollision, Mine.body, hB]
    · cases hA : A.movable <;> simp [getCollision, Mine.body, hA]

/-- C10 on the code: a mine of radius 1 at the origin (not movable) and a movable circle of
radius 1 at `(1, 0)` intersect; `getCollision` moves the movable circle by half the overlap
only, so the moved centres are at distance `3/2`, not `2`: the circles still overlap. With
the same two bodies in the other order (the movable one first) the moved centres are at
distance `2`. -/
theorem getCollision_only_b_movable_not_tangent :
    mineAtOrigin.movable = false ∧ movableAtOne.movable = true ∧
    mineAtOrigin.center ≠ movableAtOne.center ∧
    areIntersecting sqrtQ mineAtOrigin movableAtOne = true ∧
    (getCollision sqrtQ mineAtOrigin movableAtOne).resolution = (0, ⟨1 / 2, 0⟩) ∧
    VectorUtil.distance sqrtQ
      (mineAtOrigin.center + (getCollision sqrtQ mineAtOrigin movableAtOne).resolution.1)
      (movableAtOne.center + (getCollision sqrtQ mineAtOrigin movableAtOne).resolution.2)
        = 3 / 2 ∧
    mineAtOrigin.radius + movableAtOne.radius = 2 ∧
    VectorUtil.distance sqrtQ
      (movableAtOne.center + (getCollision sqrtQ movableAtOne mineAtOrigin).resolution.1)
      (mineAtOrigin.center + (getCollision sqrtQ movableAtOne mineAtOrigin).resolution.2)
        = 2 := by
  have hres : (getCollision sqrtQ mineAtOrigin movableAtOne).resolution = (0, ⟨1 / 2, 0⟩) := by
    simp [getCollision, mineAtOrigin, movableAtOne, Mine.body, overlap, VectorUtil.distance,
      VectorUtil.normalize, VectorUtil.getVector, sqrtQ_one]
    ext <;> norm_num
  have hres2 : (getCollision sqrtQ movableAtOne mineAtOrigin).resolution = (⟨1, 0⟩, 0) := by
    simp [getCollision, mineAtOrigin, movableAtOne, Mine.body, overlap, VectorUtil.distance,
      VectorUtil.normalize, VectorUtil.getVector, sqrtQ_one]
    ext <;> norm_num
  refine ⟨rfl, rfl, ?_, ?_, hres, ?_, ?_, ?_⟩
  · simp [mineAtOrigin, movableAtOne, Mine.body]
  · simp [areIntersecting, mineAtOrigin, movableAtOne, Mine.body, VectorUtil.distance,
      sqrtQ_one]
  · rw [hres]
    simp [VectorUtil.distance, mineAtOrigin, movableAtOne, Mine.body]
    norm_num [sqrtQ_nine_fourths]
  · norm_num [mineAtOrigin, movableAtOne, Mine.body]
  · rw [hres2]
    simp [VectorUtil.distance, mineAtOrigin, movableAtOne, Mine.body]
    norm_num [sqrtQ_four]

end CollisionUtil

end Ungroup

namespace Ungroup

namespace CollisionUtil

variable {F : Type} [LinearOrderedField F]

/-! ## Magnitudes and the normal -/

theorem distance_comm (sqrt : F → F) (a b : Vector2 F) :
    VectorUtil.distance sqrt a b = VectorUtil.distance sqrt b a := by
  unfold VectorUtil.distance
  congr 1
  ring

theorem mul_div_two (v : Vector2 F) (s : F) : v * s / (2 : F) = v * (s / 2) := by
  ext
  · simp only [Vector2.div_x, Vector2.mul_x]
    ring
  · simp only [Vector2.div_y, Vector2.mul_y]
    ring

theorem neg_mul_eq (v : Vector2 F) (s : F) : -v * s = v * (-s) := by
  ext
  · simp only [Vector2.neg_x, Vector2.mul_x]
    ring
  · simp only [Vector2.neg_y, Vector2.mul_y]
    ring

/-- The magnitude of a scaled vector. -/
theorem magnitude_mul {sqrt : F → F} (hs : IsSqrt sqrt) (v : Vector2 F) (s : F) :
    VectorUtil.distance sqrt 0 (v * s) = |s| * VectorUtil.distance sqrt 0 v := by
  rcases le_total 0 s with h | h
  · rw [abs_of_nonneg h]
    apply distance_of_scaled hs _ _ _ _ _ h
    · simp only [Vector2.mul_x, Vector2.zero_x]
      ring
    · simp only [Vector2.mul_y, Vector2.zero_y]
      ring
  · rw [abs_of_nonpos h, distance_comm sqrt 0 v]
    apply distance_of_scaled hs _ _ _ _ _ (neg_nonneg.2 h)
    · simp only [Vector2.mul_x, Vector2.zero_x]
      ring
    · simp only [Vector2.mul_y, Vector2.zero_y]
      ring

/-- The normal of `getCollision`, written with the distance of the centres. -/
theorem getCollision_normal (sqrt : F → F) (A B : CircleRigidBody F) :
    (getCollision sqrt A B).normal
      = (A.center - B.center) / VectorUtil.distance sqrt A.center B.center := by
  simp only [getCollision, normalize_getVector]

/-- For distinct centres the normal of `getCollision` is a unit vector. -/
theorem getCollision_normal_unit {sqrt : F → F} (hs : IsSqrt sqrt) (A B : CircleRigidBody F)
    (hc : A.center ≠ B.center) :
    VectorUtil.distance sqrt 0 (getCollision sqrt A B).normal = 1 := by
  have hd := distance_pos_of_ne hs hc
  have hd0 : VectorUtil.distance sqrt A.center B.center ≠ 0 := ne_of_gt hd
  have hk : 0 ≤ 1 / VectorUtil.distance sqrt A.center B.center :=
    div_nonneg zero_le_one (le_of_lt hd)
  have h := distance_of_scaled hs B.center A.center 0 (getCollision sqrt A B).normal
    (1 / VectorUtil.distance sqrt A.center B.center) hk
    (by rw [getCollision_normal]
        simp only [Vector2.div_x, Vector2.sub_x, Vector2.zero_x]
        ring)
    (by rw [getCollision_normal]
        simp only [Vector2.div_y, Vector2.sub_y, Vector2.zero_y]
        ring)
  rw [h, distance_comm sqrt B.center A.center]
  field_simp

/-- The magnitude of the normal scaled by `s` is `|s|`. -/
theorem magnitude_normal_mul {sqrt : F → F} (hs : IsSqrt sqrt) (A B : CircleRigidBody F)
    (hc : A.center ≠ B.center) (s : F) :
    VectorUtil.distance sqrt 0 ((getCollision sqrt A B).normal * s) = |s| := by
  rw [magnitude_mul hs, getCollision_normal_unit hs A B hc, mul_one]

theorem sqrtQ_sixteenth : sqrtQ (1 / 16) = 1 / 4 := by
  have h := sqrtQ_mul_self (1 / 4) (by norm_num)
  norm_num at h
  exact h

/-- The resolution pair of `getCollision` when both bodies are movable. -/
theorem getCollision_resolution_both (sqrt : F → F) (A B : CircleRigidBody F)
    (hA : A.movable = true) (hB : B.movable = true) :
    (getCollision sqrt A B).resolution
      = ((getCollision sqrt A B).normal * overlap sqrt A B / (2 : F),
          -(getCollision sqrt A B).normal * overlap sqrt A B / (2 : F)) := by
  simp [getCollision, hA, hB]

/-! ## The collision claims, continued -/

/-- C11: for two movable, overlapping bodies with distinct centres `getCollision` moves each
body by exactly `overlap / 2` along the line of centres, away from the other body, and the
moved centres are at distance `radiusA + radiusB`. In the scenario of two circles of radius 1
centred at `(0, 0)` and `(1.5, 0)` the overlap is `0.5`, the resolutions are `(-0.25, 0)` and
`(0.25, 0)`, of magnitude `0.25` each, and the moved centres are at distance `2`. -/
theorem getCollision_both_movable_split {sqrt : F → F} (hs : IsSqrt sqrt)
    (A B : CircleRigidBody F) (hA : A.movable = true) (hB : B.movable = true)
    (hc : A.center ≠ B.center) (ho : 0 < overlap sqrt A B) :
    ((getCollision sqrt A B).resolution.1
        = (A.center - B.center)
          * (overlap sqrt A B / 2 / VectorUtil.distance sqrt A.center B.center) ∧
      (getCollision sqrt A B).resolution.2
        = (B.center - A.center)
          * (overlap sqrt A B / 2 / VectorUtil.distance sqrt A.center B.center) ∧
      0 < overlap sqrt A B / 2 / VectorUtil.distance sqrt A.center B.center) ∧
    VectorUtil.distance sqrt 0 (getCollision sqrt A B).resolution.1 = overlap sqrt A B / 2 ∧
    VectorUtil.distance sqrt 0 (getCollision sqrt A B).resolution.2 = overlap sqrt A B / 2 ∧
    VectorUtil.distance sqrt (A.center + (getCollision sqrt A B).resolution.1)
      (B.center + (getCollision sqrt A B).resolution.2) = A.radius + B.radius ∧
    (overlap sqrtQ (movableCircle 1 0 0 1) (movableCircle 2 (3 / 2) 0 1) = 1 / 2 ∧
      (getCollision sqrtQ (movableCircle 1 0 0 1) (movableCircle 2 (3 / 2) 0 1)).resolution
        = (⟨-(1 / 4), 0⟩, ⟨1 / 4, 0⟩) ∧
      VectorUtil.distance sqrtQ 0 (⟨-(1 / 4), 0⟩ : Vector2 ℚ) = 1 / 4 ∧
      VectorUtil.distance sqrtQ 0 (⟨1 / 4, 0⟩ : Vector2 ℚ) = 1 / 4 ∧
      VectorUtil.distance sqrtQ
        ((movableCircle 1 0 0 1 : CircleRigidBody ℚ).center + ⟨-(1 / 4), 0⟩)
        ((movableCircle 2 (3 / 2) 0 1 : CircleRigidBody ℚ).center + ⟨1 / 4, 0⟩) = 2) := by
  have hd := distance_pos_of_ne hs hc
  have hd0 : VectorUtil.distance sqrt A.center B.center ≠ 0 := ne_of_gt hd
  have hres := getCollision_resolution_both sqrt A B hA hB
  have hhalf : 0 < overlap sqrt A B / 2 := by linarith
  have hovl : overlap sqrtQ (movableCircle 1 0 0 1) (movableCircle 2 (3 / 2) 0 1) = 1 / 2 := by
    simp only [overlap, movableCircle, VectorUtil.distance]
    norm_num [sqrtQ_nine_fourths]
  refine ⟨⟨?_, ?_, div_pos hhalf hd⟩, ?_, ?_, ?_, hovl, ?_, ?_, ?_, ?_⟩
  · rw [hres, getCollision_normal]
    ext
    · simp only [Vector2.div_x, Vector2.mul_x, Vector2.sub_x]
      ring
    · simp only [Vector2.div_y, Vector2.mul_y, Vector2.sub_y]
      ring
  · rw [hres, getCollision_normal]
    ext
    · simp only [Vector2.div_x, Vector2.mul_x, Vector2.sub_x, Vector2.neg_x]
      ring
    · simp only [Vector2.div_y, Vector2.mul_y, Vector2.sub_y, Vector2.neg_y]
      ring
  · rw [hres]
    dsimp only
    rw [mul_div_two, magnitude_normal_mul hs A B hc, abs_of_pos hhalf]
  · rw [hres]
    dsimp only
    rw [neg_mul_eq, mul_div_two, magnitude_normal_mul hs A B hc, neg_div, abs_neg,
      abs_of_pos hhalf]
  · exact getCollision_tangent_of_a_movable hs A B hA hc (le_of_lt ho)
  · have hn : (getCollision sqrtQ (movableCircle 1 0 0 1)
        (movableCircle 2 (3 / 2) 0 1)).normal = ⟨-1, 0⟩ := by
      rw [getCollision_normal]
      simp only [movableCircle, VectorUtil.distance]
      ext
      · simp only [Vector2.div_x, Vector2.sub_x]
        norm_num [sqrtQ_nine_fourths]
      · simp only [Vector2.div_y, Vector2.sub_y]
        norm_num
    rw [getCollision_resolution_both sqrtQ _ _ rfl rfl, hn, hovl]
    refine Prod.ext ?_ ?_
    · ext
      · simp only [Vector2.div_x, Vector2.mul_x]
        norm_num
      · simp only [Vector2.div_y, Vector2.mul_y]
        norm_num
    · ext
      · simp only [Vector2.div_x, Vector2.mul_x, Vector2.neg_x]
        norm_num
      · simp only [Vector2.div_y, Vector2.mul_y, Vector2.neg_y]
        norm_num
  · simp only [VectorUtil.distance, Vector2.zero_x, Vector2.zero_y]
    norm_num [sqrtQ_sixteenth]
  · simp only [VectorUtil.distance, Vector2.zero_x, Vector2.zero_y]
    norm_num [sqrtQ_sixteenth]
  · simp only [VectorUtil.distance, movableCircle, Vector2.add_x, Vector2.add_y]
    norm_num [sqrtQ_four]

theorem getCollision_both_movable_split_witness :
    IsSqrt Real.sqrt ∧
    (movableCircle 1 0 0 1 : CircleRigidBody ℝ).movable = true ∧
    (movableCircle 2 (3 / 2) 0 1 : CircleRigidBody ℝ).movable = true ∧
    (movableCircle 1 0 0 1 : CircleRigidBody ℝ).center
      ≠ (movableCircle 2 (3 / 2) 0 1 : CircleRigidBody ℝ).center ∧
    0 < overlap Real.sqrt (movableCircle 1 0 0 1) (movableCircle 2 (3 / 2) 0 1) ∧
    VectorUtil.distance Real.sqrt
      ((movableCircle 1 0 0 1 : CircleRigidBody ℝ).center
        + (getCollision Real.sqrt (movableCircle 1 0 0 1)
            (movableCircle 2 (3 / 2) 0 1)).resolution.1)
      ((movableCircle 2 (3 / 2) 0 1 : CircleRigidBody ℝ).center
        + (getCollision Real.sqrt (movableCircle 1 0 0 1)
            (movableCircle 2 (3 / 2) 0 1)).resolution.2)
      = (movableCircle 1 0 0 1 : CircleRigidBody ℝ).radius
        + (movableCircle 2 (3 / 2) 0 1 : CircleRigidBody ℝ).radius := by
  have hne : (movableCircle 1 0 0 1 : CircleRigidBody ℝ).center
      ≠ (movableCircle 2 (3 / 2) 0 1 : CircleRigidBody ℝ).center := by
    intro h
    have hx := congrArg Vector2.x h
    simp only [movableCircle] at hx
    norm_num at hx
  have hd : VectorUtil.distance Real.sqrt (movableCircle 1 0 0 1 : CircleRigidBody ℝ).center
      (movableCircle 2 (3 / 2) 0 1 : CircleRigidBody ℝ).center = 3 / 2 := by
    simp only [VectorUtil.distance, movableCircle]
    rw [show ((3 / 2 : ℝ) - 0) * (3 / 2 - 0) + (0 - 0) * (0 - 0) = 3 / 2 * (3 / 2) by norm_num]
    exact Real.sqrt_mul_self (by norm_num)
  have hpos : 0 < overlap Real.sqrt (movableCircle 1 0 0 1) (movableCircle 2 (3 / 2) 0 1) := by
    unfold overlap
    rw [hd]
    norm_num [movableCircle]
  exact ⟨isSqrt_real, rfl, rfl, hne, hpos,
    (getCollision_both_movable_split isSqrt_real _ _ rfl rfl hne hpos).2.2.2.1⟩

theorem sqrtQ_64_25 : sqrtQ (64 / 25) = 8 / 5 := by
  have h := sqrtQ_mul_self (8 / 5) (by norm_num)
  norm_num at h
  exact h

theorem sqrtQ_4_25 : sqrtQ (4 / 25) = 2 / 5 := by
  have h := sqrtQ_mul_self (2 / 5) (by norm_num)
  norm_num at h
  exact h

theorem sqrtQ_zero : sqrtQ 0 = 0 := by
  simpa using sqrtQ_mul_self 0 (le_refl 0)

theorem magnitude_zero {sqrt : F → F} (hs : IsSqrt sqrt) :
    VectorUtil.distance sqrt 0 (0 : Vector2 F) = 0 := by
  have h := sqrt_mul_self_of_nonneg hs (le_refl (0 : F))
  simp only [VectorUtil.distance, Vector2.zero_x, Vector2.zero_y, sub_self, mul_zero,
    add_zero] at h ⊢
  exact h

/-- The resolution pair of `getCollision` when only the first body is movable. -/
theorem getCollision_resolution_only_a (sqrt : F → F) (A B : CircleRigidBody F)
    (hA : A.movable = true) (hB : B.movable = false) :
    (getCollision sqrt A B).resolution
      = ((getCollision sqrt A B).normal * overlap sqrt A B, 0) := by
  simp [getCollision, hA, hB]

/-- The resolution pair of `getCollision` when only the second body is movable. -/
theorem getCollision_resolution_only_b (sqrt : F → F) (A B : CircleRigidBody F)
    (hA : A.movable = false) (hB : B.movable = true) :
    (getCollision sqrt A B).resolution
      = (0, -(getCollision sqrt A B).normal * overlap sqrt A B / (2 : F)) := by
  simp [getCollision, hA, hB]

/-- An intersecting pair has a positive overlap. -/
theorem overlap_pos_of_areIntersecting (sqrt : F → F) (A B : CircleRigidBody F)
    (h : areIntersecting sqrt A B = true) : 0 < overlap sqrt A B := by
  unfold areIntersecting at h
  split at h
  · exact absurd h (by simp)
  · simp only [decide_eq_true_eq] at h
    unfold overlap
    linarith

/-- C12: when A is movable and B is not (distinct centres) and the circles overlap or touch
(`0 ≤ overlap`, as for every intersecting pair), `getCollision` gives A the full correction:
`resolution.first = normal * overlap`, of magnitude `overlap = radiusA + radiusB - distance`,
and `resolution.second` is the zero vector. For a movable circle of radius 1 at `(1.6, 0)`
and a mine of radius 1 at the origin the overlap is `0.4`, A's resolution has magnitude `0.4`
and B's is zero. -/
theorem getCollision_only_a_movable {sqrt : F → F} (hs : IsSqrt sqrt)
    (A B : CircleRigidBody F) (hA : A.movable = true) (hB : B.movable = false)
    (hc : A.center ≠ B.center) (ho : 0 ≤ overlap sqrt A B) :
    (getCollision sqrt A B).resolution.1 = (getCollision sqrt A B).normal * overlap sqrt A B ∧
    overlap sqrt A B = A.radius + B.radius - VectorUtil.distance sqrt A.center B.center ∧
    VectorUtil.distance sqrt 0 (getCollision sqrt A B).resolution.1 = overlap sqrt A B ∧
    (getCollision sqrt A B).resolution.2 = 0 ∧
    VectorUtil.distance sqrt 0 (getCollision sqrt A B).resolution.2 = 0 ∧
    (overlap sqrtQ (movableCircle 2 (8 / 5) 0 1) mineAtOrigin = 2 / 5 ∧
      (getCollision sqrtQ (movableCircle 2 (8 / 5) 0 1) mineAtOrigin).resolution
        = (⟨2 / 5, 0⟩, 0) ∧
      VectorUtil.distance sqrtQ 0 (⟨2 / 5, 0⟩ : Vector2 ℚ) = 2 / 5 ∧
      VectorUtil.distance sqrtQ 0 (0 : Vector2 ℚ) = 0) := by
  have hres := getCollision_resolution_only_a sqrt A B hA hB
  have hovl : overlap sqrtQ (movableCircle 2 (8 / 5) 0 1) mineAtOrigin = 2 / 5 := by
    simp only [overlap, movableCircle, mineAtOrigin, Mine.body, VectorUtil.distance]
    norm_num [sqrtQ_64_25]
  refine ⟨by rw [hres], rfl, ?_, by rw [hres], ?_, hovl, ?_, ?_, ?_⟩
  · rw [hres]
    dsimp only
    rw [magnitude_normal_mul hs A B hc, abs_of_nonneg ho]
  · rw [hres]
    exact magnitude_zero hs
  · rw [getCollision_resolution_only_a sqrtQ _ _ rfl rfl, hovl, getCollision_normal]
    simp only [movableCircle, mineAtOrigin, Mine.body, VectorUtil.distance]
    refine Prod.ext ?_ rfl
    ext
    · simp only [Vector2.div_x, Vector2.mul_x, Vector2.sub_x]
      norm_num [sqrtQ_64_25]
    · simp only [Vector2.div_y, Vector2.mul_y, Vector2.sub_y]
      norm_num
  · simp only [VectorUtil.distance, Vector2.zero_x, Vector2.zero_y]
    norm_num [sqrtQ_4_25]
  · simp only [VectorUtil.distance, Vector2.zero_x, Vector2.zero_y]
    norm_num [sqrtQ_zero]

theorem getCollision_only_a_movable_witness :
    IsSqrt Real.sqrt ∧
    (movableCircle 2 (8 / 5) 0 1 : CircleRigidBody ℝ).movable = true ∧
    (Mine.body 3 ⟨0, 0⟩ 1 : CircleRigidBody ℝ).movable = false ∧
    (movableCircle 2 (8 / 5) 0 1 : CircleRigidBody ℝ).center
      ≠ (Mine.body 3 ⟨0, 0⟩ 1 : CircleRigidBody ℝ).center ∧
    0 ≤ overlap Real.sqrt (movableCircle 2 (8 / 5) 0 1) (Mine.body 3 ⟨0, 0⟩ 1) ∧
    areIntersecting Real.sqrt (movableCircle 2 (8 / 5) 0 1) (Mine.body 3 ⟨0, 0⟩ 1) = true ∧
    overlap Real.sqrt (movableCircle 2 (8 / 5) 0 1) (Mine.body 3 ⟨0, 0⟩ 1) = 2 / 5 ∧
    VectorUtil.distance Real.sqrt 0
      (getCollision Real.sqrt (movableCircle 2 (8 / 5) 0 1)
        (Mine.body 3 ⟨0, 0⟩ 1)).resolution.1 = 2 / 5 ∧
    (getCollision Real.sqrt (movableCircle 2 (8 / 5) 0 1)
      (Mine.body 3 ⟨0, 0⟩ 1)).resolution.2 = 0 := by
  have hne : (movableCircle 2 (8 / 5) 0 1 : CircleRigidBody ℝ).center
      ≠ (Mine.body 3 ⟨0, 0⟩ 1 : CircleRigidBody ℝ).center := by
    intro h
    have hx := congrArg Vector2.x h
    simp only [movableCircle, Mine.body] at hx
    norm_num at hx
  have hd : VectorUtil.distance Real.sqrt (movableCircle 2 (8 / 5) 0 1 : CircleRigidBody ℝ).center
      (Mine.body 3 ⟨0, 0⟩ 1 : CircleRigidBody ℝ).center = 8 / 5 := by
    simp only [VectorUtil.distance, movableCircle, Mine.body]
    rw [show ((0 : ℝ) - 8 / 5) * (0 - 8 / 5) + (0 - 0) * (0 - 0) = 8 / 5 * (8 / 5) by norm_num]
    exact Real.sqrt_mul_self (by norm_num)
  have hovl : overlap Real.sqrt (movableCircle 2 (8 / 5) 0 1) (Mine.body 3 ⟨0, 0⟩ 1)
      = 2 / 5 := by
    unfold overlap
    rw [hd]
    norm_num [movableCircle, Mine.body]
  have hpos : 0 ≤ overlap Real.sqrt (movableCircle 2 (8 / 5) 0 1) (Mine.body 3 ⟨0, 0⟩ 1) := by
    rw [hovl]
    norm_num
  have hint : areIntersecting Real.sqrt (movableCircle 2 (8 / 5) 0 1)
      (Mine.body 3 ⟨0, 0⟩ 1) = true := by
    unfold areIntersecting
    rw [if_neg (by simp [movableCircle, Mine.body])]
    simp only [decide_eq_true_eq]
    rw [hd]
    norm_num [movableCircle, Mine.body]
  have h := getCollision_only_a_movable isSqrt_real (movableCircle 2 (8 / 5) 0 1)
    (Mine.body 3 ⟨0, 0⟩ 1) rfl rfl hne hpos
  exact ⟨isSqrt_real, rfl, rfl, hne, hpos, hint, hovl, by rw [h.2.2.1, hovl], h.2.2.2.1⟩

/-- C17: when A is not movable and B is (distinct centres) and the circles overlap
(`0 < overlap`, as for every intersecting pair), `getCollision` gives A the zero vector and B
the resolution `-normal * overlap / 2`: a correction of magnitude `overlap / 2`, half the
overlap, that is a positive multiple of the vector from A's centre to B's centre, so
directed away from A, opposite to the normal. -/
theorem getCollision_only_b_movable {sqrt : F → F} (hs : IsSqrt sqrt)
    (A B : CircleRigidBody F) (hA : A.movable = false) (hB : B.movable = true)
    (hc : A.center ≠ B.center) (ho : 0 < overlap sqrt A B) :
    (getCollision sqrt A B).resolution.1 = 0 ∧
    (getCollision sqrt A B).resolution.2
      = -(getCollision sqrt A B).normal * overlap sqrt A B / (2 : F) ∧
    VectorUtil.distance sqrt 0 (getCollision sqrt A B).resolution.2 = overlap sqrt A B / 2 ∧
    ((getCollision sqrt A B).resolution.2
        = -(getCollision sqrt A B).normal * (overlap sqrt A B / 2) ∧
      0 < overlap sqrt A B / 2) ∧
    ((getCollision sqrt A B).resolution.2
        = (B.center - A.center)
          * (overlap sqrt A B / 2 / VectorUtil.distance sqrt A.center B.center) ∧
      0 < overlap sqrt A B / 2 / VectorUtil.distance sqrt A.center B.center) := by
  have hd := distance_pos_of_ne hs hc
  have hres := getCollision_resolution_only_b sqrt A B hA hB
  have hhalf : 0 < overlap sqrt A B / 2 := by linarith
  refine ⟨by rw [hres], by rw [hres], ?_, ⟨?_, hhalf⟩, ⟨?_, div_pos hhalf hd⟩⟩
  · rw [hres]
    dsimp only
    rw [neg_mul_eq, mul_div_two, magnitude_normal_mul hs A B hc, neg_div, abs_neg,
      abs_of_pos hhalf]
  · rw [hres]
    exact mul_div_two _ _
  · rw [hres, getCollision_normal]
    ext
    · simp only [Vector2.div_x, Vector2.mul_x, Vector2.sub_x, Vector2.neg_x]
      ring
    · simp only [Vector2.div_y, Vector2.mul_y, Vector2.sub_y, Vector2.neg_y]
      ring

theorem getCollision_only_b_movable_witness :
    IsSqrt Real.sqrt ∧
    (Mine.body 3 ⟨0, 0⟩ 1 : CircleRigidBody ℝ).movable = false ∧
    (movableCircle 2 (8 / 5) 0 1 : CircleRigidBody ℝ).movable = true ∧
    (Mine.body 3 ⟨0, 0⟩ 1 : CircleRigidBody ℝ).center
      ≠ (movableCircle 2 (8 / 5) 0 1 : CircleRigidBody ℝ).center ∧
    0 < overlap Real.sqrt (Mine.body 3 ⟨0, 0⟩ 1) (movableCircle 2 (8 / 5) 0 1) ∧
    areIntersecting Real.sqrt (Mine.body 3 ⟨0, 0⟩ 1) (movableCircle 2 (8 / 5) 0 1) = true ∧
    overlap Real.sqrt (Mine.body 3 ⟨0, 0⟩ 1) (movableCircle 2 (8 / 5) 0 1) = 2 / 5 ∧
    (getCollision Real.sqrt (Mine.body 3 ⟨0, 0⟩ 1)
      (movableCircle 2 (8 / 5) 0 1)).resolution.1 = 0 ∧
    VectorUtil.distance Real.sqrt 0
      (getCollision Real.sqrt (Mine.body 3 ⟨0, 0⟩ 1)
        (movableCircle 2 (8 / 5) 0 1)).resolution.2 = 1 / 5 := by
  have hne : (Mine.body 3 ⟨0, 0⟩ 1 : CircleRigidBody ℝ).center
      ≠ (movableCircle 2 (8 / 5) 0 1 : CircleRigidBody ℝ).center := by
    intro h
    have hx := congrArg Vector2.x h
    simp only [movableCircle, Mine.body] at hx
    norm_num at hx
  have hd : VectorUtil.distance Real.sqrt (Mine.body 3 ⟨0, 0⟩ 1 : CircleRigidBody ℝ).center
      (movableCircle 2 (8 / 5) 0 1 : CircleRigidBody ℝ).center = 8 / 5 := by
    simp only [VectorUtil.distance, movableCircle, Mine.body]
    rw [show ((8 / 5 : ℝ) - 0) * (8 / 5 - 0) + (0 - 0) * (0 - 0) = 8 / 5 * (8 / 5) by norm_num]
    exact Real.sqrt_mul_self (by norm_num)
  have hovl : overlap Real.sqrt (Mine.body 3 ⟨0, 0⟩ 1) (movableCircle 2 (8 / 5) 0 1)
      = 2 / 5 := by
    unfold overlap
    rw [hd]
    norm_num [movableCircle, Mine.body]
  have hpos : 0 < overlap Real.sqrt (Mine.body 3 ⟨0, 0⟩ 1) (movableCircle 2 (8 / 5) 0 1) := by
    rw [hovl]
    norm_num
  have hint : areIntersecting Real.sqrt (Mine.body 3 ⟨0, 0⟩ 1)
      (movableCircle 2 (8 / 5) 0 1) = true := by
    unfold areIntersecting
    rw [if_neg (by simp [movableCircle, Mine.body])]
    simp only [decide_eq_true_eq]
    rw [hd]
    norm_num [movableCircle, Mine.body]
  have h := getCollision_only_b_movable isSqrt_real (Mine.body 3 ⟨0, 0⟩ 1)
    (movableCircle 2 (8 / 5) 0 1) rfl rfl hne hpos
  exact ⟨isSqrt_real, rfl, rfl, hne, hpos, hint, hovl, h.1, by rw [h.2.2.1, hovl]; norm_num⟩

/-- At coincident centres the normal of `getCollision` is the zero vector divided by its
length: each component is a quotient `0 / 0`. -/
theorem getCollision_normal_coincident (sqrt : F → F) (A B : CircleRigidBody F)
    (hc : A.center = B.center) :
    (getCollision sqrt A B).normal = VectorUtil.normalize sqrt 0 ∧
    (getCollision sqrt A B).normal = ⟨0 / sqrt 0, 0 / sqrt 0⟩ := by
  have h0 : VectorUtil.getVector B.center A.center = 0 := by
    rw [hc]
    ext
    · simp [VectorUtil.getVector]
    · simp [VectorUtil.getVector]
  constructor
  · simp only [getCollision, h0]
  · simp only [getCollision, h0, VectorUtil.normalize]
    ext
    · simp
    · simp

/-- C13, as stated, fails: two circles with different ids and the same centre `(0, 0)` get the
normal `normalize (0, 0)`, the zero vector divided by the length zero; there is no fallback,
and the result is not a unit vector. -/
theorem getCollision_normal_counterexample :
    (movableCircle 1 0 0 1 : CircleRigidBody ℚ).id
      ≠ (movableCircle 2 0 0 1 : CircleRigidBody ℚ).id ∧
    (movableCircle 1 0 0 1 : CircleRigidBody ℚ).center
      = (movableCircle 2 0 0 1 : CircleRigidBody ℚ).center ∧
    VectorUtil.distance sqrtQ (movableCircle 1 0 0 1 : CircleRigidBody ℚ).center
      (movableCircle 2 0 0 1 : CircleRigidBody ℚ).center = 0 ∧
    (getCollision sqrtQ (movableCircle 1 0 0 1) (movableCircle 2 0 0 1)).normal
      = VectorUtil.normalize sqrtQ 0 ∧
    VectorUtil.distance sqrtQ 0
      (getCollision sqrtQ (movableCircle 1 0 0 1) (movableCircle 2 0 0 1)).normal ≠ 1 := by
  have hn := getCollision_normal_coincident sqrtQ (movableCircle 1 0 0 1)
    (movableCircle 2 0 0 1) rfl
  refine ⟨by decide, rfl, ?_, hn.1, ?_⟩
  · simp only [VectorUtil.distance, movableCircle]
    norm_num [sqrtQ_zero]
  · rw [hn.2]
    simp only [VectorUtil.distance, Vector2.zero_x, Vector2.zero_y]
    norm_num [sqrtQ_zero]

/-- C13, amended: `getCollision` returns a collision for every pair of bodies; for distinct
centres its normal is the unit vector from B's centre toward A's centre; for coincident
centres there is no fallback normal: the normal is `normalize` of the zero vector, a quotient
by the length zero, and it is not a unit vector. -/
theorem getCollision_normal_unit_iff {sqrt : F → F} (hs : IsSqrt sqrt)
    (A B : CircleRigidBody F) :
    (A.center ≠ B.center →
      (getCollision sqrt A B).normal
        = (A.center - B.center) / VectorUtil.distance sqrt A.center B.center ∧
      0 < VectorUtil.distance sqrt A.center B.center ∧
      VectorUtil.distance sqrt 0 (getCollision sqrt A B).normal = 1) ∧
    (A.center = B.center →
      (getCollision sqrt A B).normal = VectorUtil.normalize sqrt 0 ∧
      VectorUtil.distance sqrt 0 (getCollision sqrt A B).normal ≠ 1) := by
  constructor
  · intro hc
    exact ⟨getCollision_normal sqrt A B, distance_pos_of_ne hs hc,
      getCollision_normal_unit hs A B hc⟩
  · intro hc
    have hn := getCollision_normal_coincident sqrt A B hc
    refine ⟨hn.1, ?_⟩
    have hz : (⟨0 / sqrt 0, 0 / sqrt 0⟩ : Vector2 F) = 0 := by
      ext
      · simp
      · simp
    rw [hn.2, hz, magnitude_zero hs]
    exact zero_ne_one

theorem getCollision_normal_unit_iff_witness :
    IsSqrt Real.sqrt ∧
    (movableCircle 1 0 0 1 : CircleRigidBody ℝ).center
      ≠ (movableCircle 2 1 0 1 : CircleRigidBody ℝ).center ∧
    VectorUtil.distance Real.sqrt 0
      (getCollision Real.sqrt (movableCircle 1 0 0 1) (movableCircle 2 1 0 1)).normal = 1 := by
  have hne : (movableCircle 1 0 0 1 : CircleRigidBody ℝ).center
      ≠ (movableCircle 2 1 0 1 : CircleRigidBody ℝ).center := by
    intro h
    have hx := congrArg Vector2.x h
    simp only [movableCircle] at hx
    norm_num at hx
  exact ⟨isSqrt_real, hne,
    ((getCollision_normal_unit_iff isSqrt_real (movableCircle 1 0 0 1)
      (movableCircle 2 1 0 1)).1 hne).2.2⟩

theorem reciprocalSum_infinite_left (r : Reciprocal F) :
    reciprocalSum Reciprocal.infinite r = Reciprocal.infinite := by
  cases r <;> rfl

theorem reciprocalSum_infinite_right (r : Reciprocal F) :
    reciprocalSum r Reciprocal.infinite = Reciprocal.infinite := by
  cases r <;> rfl

theorem reciprocal_zero : reciprocal (Mass.finite (0 : F)) = Reciprocal.infinite := by
  simp [reciprocal]

/-- C14: for two bodies of which at least one has a finite mass, `getImpulses` returns two
impulses with the same scalar magnitude
`j = -2 * dot (vA - vB) normal / (1 / massA + 1 / massB)`, the first directed along
`collision.normal` and the second along the negated normal, so that the vectors `normal * j`
and `-normal * j` sum to zero. The quotient `1 / mass` is `0` for an infinite mass; for a
mass `0` it is `+infinity` and `j = 0`. -/
theorem getImpulses_spec (A B : CircleRigidBody F) (c : Collision F)
    (_hm : A.mass ≠ Mass.infinity ∨ B.mass ≠ Mass.infinity) :
    (∀ mA mB : F, A.mass = Mass.finite mA → B.mass = Mass.finite mB →
      mA ≠ 0 → mB ≠ 0 → 1 / mA + 1 / mB ≠ 0 →
      (getImpulses A B c).1.magnitude
        = -2 * VectorUtil.dot (A.velocity - B.velocity) c.normal / (1 / mA + 1 / mB)) ∧
    (∀ mA : F, A.mass = Mass.finite mA → B.mass = Mass.infinity → mA ≠ 0 →
      (getImpulses A B c).1.magnitude
        = -2 * VectorUtil.dot (A.velocity - B.velocity) c.normal / (1 / mA + 0)) ∧
    (∀ mB : F, A.mass = Mass.infinity → B.mass = Mass.finite mB → mB ≠ 0 →
      (getImpulses A B c).1.magnitude
        = -2 * VectorUtil.dot (A.velocity - B.velocity) c.normal / (0 + 1 / mB)) ∧
    (A.mass = Mass.finite 0 ∨ B.mass = Mass.finite 0 →
      (getImpulses A B c).1.magnitude = 0) ∧
    (getImpulses A B c).2.magnitude = (getImpulses A B c).1.magnitude ∧
    (getImpulses A B c).1.direction = c.normal ∧
    (getImpulses A B c).2.direction = -c.normal ∧
    (getImpulses A B c).1.direction * (getImpulses A B c).1.magnitude
      + (getImpulses A B c).2.direction * (getImpulses A B c).2.magnitude = 0 := by
  refine ⟨?_, ?_, ?_, ?_, rfl, rfl, rfl, ?_⟩
  · intro mA mB hA hB hA0 hB0 _
    simp only [getImpulses, hA, hB, reciprocal, hA0, hB0, if_false, reciprocalSum, divideBy]
  · intro mA hA hB hA0
    simp only [getImpulses, hA, hB, reciprocal, hA0, if_false, reciprocalSum, divideBy]
  · intro mB hA hB hB0
    simp only [getImpulses, hA, hB, reciprocal, hB0, if_false, reciprocalSum, divideBy]
  · intro h0
    rcases h0 with h0 | h0
    · simp only [getImpulses, h0, reciprocal_zero, reciprocalSum_infinite_left, divideBy]
    · simp only [getImpulses, h0, reciprocal_zero, reciprocalSum_infinite_right, divideBy]
  · simp only [getImpulses]
    ext
    · simp only [Vector2.add_x, Vector2.mul_x, Vector2.neg_x, Vector2.zero_x]
      ring
    · simp only [Vector2.add_y, Vector2.mul_y, Vector2.neg_y, Vector2.zero_y]
      ring

theorem getImpulses_spec_witness :
    (movingAtOrigin.mass ≠ Mass.infinity ∨ movingAtOne.mass ≠ Mass.infinity) ∧
    (getCollision sqrtQ movingAtOrigin movingAtOne).normal = ⟨-1, 0⟩ ∧
    (getImpulses movingAtOrigin movingAtOne
      (getCollision sqrtQ movingAtOrigin movingAtOne)).1.magnitude = 8 ∧
    (getImpulses movingAtOrigin movingAtOne
      (getCollision sqrtQ movingAtOrigin movingAtOne)).2.magnitude = 8 ∧
    (getImpulses movingAtOrigin movingAtOne
      (getCollision sqrtQ movingAtOrigin movingAtOne)).1.direction = ⟨-1, 0⟩ ∧
    (getImpulses movingAtOrigin movingAtOne
      (getCollision sqrtQ movingAtOrigin movingAtOne)).2.direction = -⟨-1, 0⟩ ∧
    (getImpulses movingAtOrigin mineAtOne
      (getCollision sqrtQ movingAtOrigin mineAtOne)).1.magnitude = 12 := by
  have hn : (getCollision sqrtQ movingAtOrigin movingAtOne).normal = ⟨-1, 0⟩ := by
    rw [getCollision_normal]
    simp only [movingAtOrigin, movingAtOne, VectorUtil.distance]
    ext
    · simp only [Vector2.div_x, Vector2.sub_x]
      norm_num [sqrtQ_one]
    · simp only [Vector2.div_y, Vector2.sub_y]
      norm_num
  have hm : movingAtOrigin.mass ≠ Mass.infinity ∨ movingAtOne.mass ≠ Mass.infinity :=
    Or.inl (fun h => Mass.noConfusion h)
  have h := getImpulses_spec movingAtOrigin movingAtOne
    (getCollision sqrtQ movingAtOrigin movingAtOne) hm
  have hj : (getImpulses movingAtOrigin movingAtOne
      (getCollision sqrtQ movingAtOrigin movingAtOne)).1.magnitude = 8 := by
    rw [h.1 2 2 rfl rfl (by norm_num) (by norm_num) (by norm_num), hn]
    simp only [VectorUtil.dot, movingAtOrigin, movingAtOne, Vector2.sub_x, Vector2.sub_y]
    norm_num
  have hn2 : (getCollision sqrtQ movingAtOrigin mineAtOne).normal = ⟨-1, 0⟩ := by
    rw [getCollision_normal]
    simp only [movingAtOrigin, mineAtOne, Mine.body, VectorUtil.distance]
    ext
    · simp only [Vector2.div_x, Vector2.sub_x]
      norm_num [sqrtQ_one]
    · simp only [Vector2.div_y, Vector2.sub_y]
      norm_num
  have h2 := getImpulses_spec movingAtOrigin mineAtOne
    (getCollision sqrtQ movingAtOrigin mineAtOne) (Or.inl (fun h => Mass.noConfusion h))
  refine ⟨hm, hn, hj, ?_, ?_, ?_, ?_⟩
  · rw [h.2.2.2.2.1, hj]
  · rw [h.2.2.2.2.2.1, hn]
  · rw [h.2.2.2.2.2.2.1, hn]
  · rw [h2.2.1 2 rfl rfl (by norm_num), hn2]
    simp only [VectorUtil.dot, movingAtOrigin, mineAtOne, Mine.body, Vector2.sub_x,
      Vector2.sub_y, Vector2.zero_x, Vector2.zero_y]
    norm_num

end CollisionUtil

end Ungroup

namespace Ungroup

namespace GameController

variable {G CI GU MU PU GCU : Type}

/-! ## The fixed-timestep loop -/

/-- With enough fuel the loop returns: it takes `acc / MIN_TIME_STEP` steps, each with delta
`MIN_TIME_STEP`, leaves `acc % MIN_TIME_STEP` in the accumulator and advances the elapsed
time by `MIN_TIME_STEP` per step. -/
theorem updateLoop_eq (h : Hooks G CI) (M : Int) (cis : CI) (hM : 0 < M) :
    ∀ (fuel : Nat) (gc : GameController G) (n : Nat), 0 ≤ gc.mTimeAccumulator →
      (gc.mTimeAccumulator / M).toNat < fuel →
      updateLoop h M cis fuel gc n =
        some ({ mTimeAccumulator := gc.mTimeAccumulator % M
                mElapsedTime := gc.mElapsedTime + M * (gc.mTimeAccumulator / M)
                mTick := ((h.step cis M)^[(gc.mTimeAccumulator / M).toNat]
                  (gc.mTick, gc.objects)).1
                objects := ((h.step cis M)^[(gc.mTimeAccumulator / M).toNat]
                  (gc.mTick, gc.objects)).2 },
              n + (gc.mTimeAccumulator / M).toNat) := by
  intro fuel
  induction fuel with
  | zero =>
    intro gc n _ hf
    exact absurd hf (Nat.not_lt_zero _)
  | succ fuel ih =>
    intro gc n h0 hf
    obtain ⟨acc, el, tick, objs⟩ := gc
    simp only at h0 hf ⊢
    by_cases hge : acc ≥ M
    · have hdiv : (acc - M) / M = acc / M - 1 := by
        have := Int.add_mul_ediv_right acc (-1) (ne_of_gt hM)
        simpa [sub_eq_add_neg] using this
      have hmod : (acc - M) % M = acc % M := by
        have h2 := @Int.add_mul_emod_self acc (-1) M
        rw [neg_one_mul, ← sub_eq_add_neg] at h2
        exact h2
      have hq : 1 ≤ acc / M := by
        have h1 : M / M ≤ acc / M := Int.ediv_le_ediv hM hge
        rwa [Int.ediv_self (ne_of_gt hM)] at h1
      have hk : (acc / M).toNat = ((acc - M) / M).toNat + 1 := by
        rw [hdiv]
        omega
      have ih1 := ih ⟨acc - M, el + M, (h.step cis M (tick, objs)).1,
        (h.step cis M (tick, objs)).2⟩ (n + 1) (by simp only; omega)
        (by simp only; omega)
      simp only [updateLoop, hge, if_true]
      rw [ih1]
      simp only [hmod, hk, Function.iterate_succ_apply, hdiv]
      congr 2
      · congr 1
        ring
      · omega
    · have hlt : acc < M := lt_of_not_ge hge
      have hdiv : acc / M = 0 := Int.ediv_eq_zero_of_lt h0 hlt
      have hmod : acc % M = acc := Int.emod_eq_of_lt h0 hlt
      simp [updateLoop, hge, hdiv, hmod]

/-- What one call of `update` computes, given enough fuel. -/
theorem update_eq (h : Hooks G CI) (M : Int) (fuel : Nat) (f : Int) (gc : GameController G)
    (hM : 0 < M) (hsum : 0 ≤ gc.mTimeAccumulator + f)
    (hfuel : ((gc.mTimeAccumulator + f) / M).toNat < fuel) :
    update h M fuel f gc =
      some ({ mTimeAccumulator := (gc.mTimeAccumulator + f) % M
              mElapsedTime := gc.mElapsedTime + M * ((gc.mTimeAccumulator + f) / M)
              mTick := ((h.step (h.collectInputs gc.objects).1 M)^[
                ((gc.mTimeAccumulator + f) / M).toNat]
                  (gc.mTick, (h.collectInputs gc.objects).2)).1
              objects := h.setNetworkState
                ((h.step (h.collectInputs gc.objects).1 M)^[
                  ((gc.mTimeAccumulator + f) / M).toNat]
                    (gc.mTick, (h.collectInputs gc.objects).2)).2 },
            ((gc.mTimeAccumulator + f) / M).toNat) := by
  unfold update
  simp only
  rw [updateLoop_eq h M _ hM fuel _ 0 hsum hfuel]
  simp

/-- Successive calls of `update` from an accumulator in `[0, MIN_TIME_STEP)`: the number of
steps, the elapsed time and the accumulator depend on the sum of the frame times only. -/
theorem runFrames_eq (h : Hooks G CI) (M : Int) (fuel : Nat) (hM : 0 < M) :
    ∀ (frames : List Int) (gc : GameController G) (n : Nat),
      0 ≤ gc.mTimeAccumulator → gc.mTimeAccumulator < M → (∀ f ∈ frames, 0 ≤ f) →
      ((gc.mTimeAccumulator + frames.sum) / M).toNat < fuel →
      (runFrames h M fuel frames gc n).map
          (fun r => (r.2, r.1.mElapsedTime, r.1.mTimeAccumulator))
        = some (n + ((gc.mTimeAccumulator + frames.sum) / M).toNat,
            gc.mElapsedTime + M * ((gc.mTimeAccumulator + frames.sum) / M),
            (gc.mTimeAccumulator + frames.sum) % M) := by
  intro frames
  induction frames with
  | nil =>
    intro gc n h0 h1 _ _
    have hdiv : gc.mTimeAccumulator / M = 0 := Int.ediv_eq_zero_of_lt h0 h1
    have hmod : gc.mTimeAccumulator % M = gc.mTimeAccumulator := Int.emod_eq_of_lt h0 h1
    simp [runFrames, hdiv, hmod]
  | cons f fs ih =>
    intro gc n h0 h1 hall hfuel
    have hf : 0 ≤ f := hall f (List.mem_cons_self _ _)
    have hfs : ∀ g ∈ fs, 0 ≤ g := fun g hg => hall g (List.mem_cons_of_mem _ hg)
    have hS : 0 ≤ fs.sum := List.sum_nonneg hfs
    have hsum : 0 ≤ gc.mTimeAccumulator + f := add_nonneg h0 hf
    have hM0 : M ≠ 0 := ne_of_gt hM
    rw [List.sum_cons] at hfuel ⊢
    have hsplit : gc.mTimeAccumulator + (f + fs.sum)
        = ((gc.mTimeAccumulator + f) % M + fs.sum)
          + M * ((gc.mTimeAccumulator + f) / M) := by
      have := Int.emod_add_ediv (gc.mTimeAccumulator + f) M
      linarith
    have hq0 : 0 ≤ (gc.mTimeAccumulator + f) / M := Int.ediv_nonneg hsum (le_of_lt hM)
    have hr0 : 0 ≤ (gc.mTimeAccumulator + f) % M := Int.emod_nonneg _ hM0
    have hr1 : (gc.mTimeAccumulator + f) % M < M := Int.emod_lt_of_pos _ hM
    have hx0 : 0 ≤ ((gc.mTimeAccumulator + f) % M + fs.sum) / M :=
      Int.ediv_nonneg (add_nonneg hr0 hS) (le_of_lt hM)
    have hdiv : (gc.mTimeAccumulator + (f + fs.sum)) / M
        = ((gc.mTimeAccumulator + f) % M + fs.sum) / M + (gc.mTimeAccumulator + f) / M := by
      rw [hsplit, Int.add_mul_ediv_left _ _ hM0]
    have hmod : (gc.mTimeAccumulator + (f + fs.sum)) % M
        = ((gc.mTimeAccumulator + f) % M + fs.sum) % M := by
      rw [hsplit, Int.add_mul_emod_self_left]
    have hfuel1 : ((gc.mTimeAccumulator + f) / M).toNat < fuel := by
      rw [hdiv] at hfuel
      omega
    have hfuel2 : (((gc.mTimeAccumulator + f) % M + fs.sum) / M).toNat < fuel := by
      rw [hdiv] at hfuel
      omega
    simp only [runFrames, update_eq h M fuel f gc hM hsum hfuel1]
    rw [ih _ _ hr0 hr1 hfs hfuel2]
    simp only [hdiv, hmod]
    congr 2
    · omega
    · congr 1
      ring

/-! ## The GameController claims -/

/-- C15: fixed-timestep accumulator. With `MIN_TIME_STEP > 0`, an accumulator `a` with
`0 ≤ a < MIN_TIME_STEP` and a frame time `f ≥ 0`, one call of `update` returns (for every
fuel above the number of steps) after exactly `floor ((a + f) / MIN_TIME_STEP)` calls of
`step`, each with delta `MIN_TIME_STEP`; the accumulator is then `(a + f) mod MIN_TIME_STEP`,
again in `[0, MIN_TIME_STEP)`, and the elapsed time has advanced by `MIN_TIME_STEP` times the
number of steps. -/
theorem update_fixed_timestep (h : Hooks G CI) (M : Int) (fuel : Nat) (f : Int)
    (gc : GameController G) (hM : 0 < M) (ha : 0 ≤ gc.mTimeAccumulator)
    (_haM : gc.mTimeAccumulator < M) (hf : 0 ≤ f)
    (hfuel : ((gc.mTimeAccumulator + f) / M).toNat < fuel) :
    update h M fuel f gc =
      some ({ mTimeAccumulator := (gc.mTimeAccumulator + f) % M
              mElapsedTime := gc.mElapsedTime + M * ((gc.mTimeAccumulator + f) / M)
              mTick := ((h.step (h.collectInputs gc.objects).1 M)^[
                ((gc.mTimeAccumulator + f) / M).toNat]
                  (gc.mTick, (h.collectInputs gc.objects).2)).1
              objects := h.setNetworkState
                ((h.step (h.collectInputs gc.objects).1 M)^[
                  ((gc.mTimeAccumulator + f) / M).toNat]
                    (gc.mTick, (h.collectInputs gc.objects).2)).2 },
            ((gc.mTimeAccumulator + f) / M).toNat) ∧
    ((((gc.mTimeAccumulator + f) / M).toNat : Int) = (gc.mTimeAccumulator + f) / M) ∧
    0 ≤ (gc.mTimeAccumulator + f) % M ∧ (gc.mTimeAccumulator + f) % M < M := by
  have hsum : 0 ≤ gc.mTimeAccumulator + f := add_nonneg ha hf
  exact ⟨update_eq h M fuel f gc hM hsum hfuel,
    Int.toNat_of_nonneg (Int.ediv_nonneg hsum (le_of_lt hM)),
    Int.emod_nonneg _ (ne_of_gt hM), Int.emod_lt_of_pos _ hM⟩

theorem update_fixed_timestep_witness :
    (0 : Int) < 8 ∧ (0 : Int) ≤ 5 ∧ (5 : Int) < 8 ∧ (0 : Int) ≤ 20 ∧
    (((5 : Int) + 20) / 8).toNat < 10 ∧
    update countingHooks 8 10 20 ⟨5, 100, 7, 0⟩ = some (⟨1, 124, 10, 3⟩, 3) := by
  have h := update_fixed_timestep countingHooks 8 10 20 ⟨5, 100, 7, 0⟩ (by decide)
    (by decide) (by decide) (by decide) (by decide)
  exact ⟨by decide, by decide, by decide, by decide, by decide, by rw [h.1]; rfl⟩

/-- C16: timestep determinism with respect to the frame rate. From an empty accumulator, two
sequences of non-negative frame times with the same total `T` make the successive calls of
`update` take the same total number of steps, `floor (T / MIN_TIME_STEP)`, and end with the
same elapsed time (and the same accumulator); two runs on the same sequence end in the same
state with the same number of steps. -/
theorem runFrames_deterministic (h : Hooks G CI) (M : Int) (fuel : Nat) (fs gs : List Int)
    (gc : GameController G) (hM : 0 < M) (hacc : gc.mTimeAccumulator = 0)
    (hfs : ∀ f ∈ fs, 0 ≤ f) (hgs : ∀ f ∈ gs, 0 ≤ f) (hsum : fs.sum = gs.sum)
    (hfuel : (fs.sum / M).toNat < fuel) :
    (runFrames h M fuel fs gc 0).map (fun r => (r.2, r.1.mElapsedTime, r.1.mTimeAccumulator))
      = some ((fs.sum / M).toNat, gc.mElapsedTime + M * (fs.sum / M), fs.sum % M) ∧
    (runFrames h M fuel gs gc 0).map (fun r => (r.2, r.1.mElapsedTime, r.1.mTimeAccumulator))
      = some ((fs.sum / M).toNat, gc.mElapsedTime + M * (fs.sum / M), fs.sum % M) ∧
    (((fs.sum / M).toNat : Int) = fs.sum / M) ∧
    (fs = gs → runFrames h M fuel fs gc 0 = runFrames h M fuel gs gc 0) := by
  have h1 := runFrames_eq h M fuel hM fs gc 0 (by rw [hacc]) (by rw [hacc]; exact hM) hfs
    (by rw [hacc, zero_add]; exact hfuel)
  have h2 := runFrames_eq h M fuel hM gs gc 0 (by rw [hacc]) (by rw [hacc]; exact hM) hgs
    (by rw [hacc, zero_add, ← hsum]; exact hfuel)
  rw [hacc, zero_add, zero_add] at h1
  rw [hacc, zero_add, zero_add, ← hsum] at h2
  refine ⟨h1, h2, ?_, ?_⟩
  · exact Int.toNat_of_nonneg (Int.ediv_nonneg (List.sum_nonneg hfs) (le_of_lt hM))
  · intro he
    rw [he]

theorem runFrames_deterministic_witness :
    (0 : Int) < 8 ∧ (⟨0, 0, 0, 0⟩ : GameController Nat).mTimeAccumulator = 0 ∧
    (∀ f ∈ [(20 : Int), 3, 9], 0 ≤ f) ∧ (∀ f ∈ [(16 : Int), 16], 0 ≤ f) ∧
    [(20 : Int), 3, 9].sum = [(16 : Int), 16].sum ∧ ([(20 : Int), 3, 9].sum / 8).toNat < 10 ∧
    (runFrames countingHooks 8 10 [20, 3, 9] ⟨0, 0, 0, 0⟩ 0).map
        (fun r => (r.2, r.1.mElapsedTime, r.1.mTimeAccumulator)) = some (4, 32, 0) ∧
    (runFrames countingHooks 8 10 [16, 16] ⟨0, 0, 0, 0⟩ 0).map
        (fun r => (r.2, r.1.mElapsedTime, r.1.mTimeAccumulator)) = some (4, 32, 0) := by
  have h := runFrames_deterministic countingHooks 8 10 [20, 3, 9] [16, 16] ⟨0, 0, 0, 0⟩
    (by decide) rfl (by decide) (by decide) (by decide) (by decide)
  exact ⟨by decide, rfl, by decide, by decide, by decide, by decide, h.1, h.2.1⟩

/-- C18, as stated, fails: a controller at tick 10 that applies a snapshot of tick 3 is at
tick 3 afterwards. -/
theorem applyGameState_tick_counterexample :
    (applyGameState noUpdates ⟨0, 0, 10, ()⟩ ⟨3, [], [], [], ()⟩).mTick = 3 ∧
    ¬ ((⟨0, 0, 10, ()⟩ : GameController Unit).mTick
        ≤ (applyGameState noUpdates ⟨0, 0, 10, ()⟩ ⟨3, [], [], [], ()⟩).mTick) := by
  decide

/-- C18, amended: `applyGameState` sets the local tick from `snapshot.tick` (a 32-bit unsigned
value), whatever the tick before the call was; the tick after the call is at least the tick
before exactly when the snapshot's tick is. -/
theorem applyGameState_tick (h : ApplyHooks G GU MU PU GCU) (gc : GameController G)
    (gs : GameState GU MU PU GCU) :
    (applyGameState h gc gs).mTick = gs.tick % U32_MOD ∧
    (gs.tick < U32_MOD → (applyGameState h gc gs).mTick = gs.tick) ∧
    (gc.mTick ≤ (applyGameState h gc gs).mTick ↔ gc.mTick ≤ gs.tick % U32_MOD) := by
  refine ⟨rfl, ?_, Iff.rfl⟩
  intro hlt
  show gs.tick % U32_MOD = gs.tick
  exact Nat.mod_eq_of_lt hlt

/-- C19: collision knockback is asymmetric. For a collision event, a first collider of group
type receives the force `direction * (-30)`, a second collider of group type receives
`direction * 10`, and a collider that is not of group type receives no force; the two forces
are opposite, the first being `-3` times the second, so of 3 times its magnitude. An event
of another type applies no force. -/
theorem collisionEvent_knockback {F : Type} [LinearOrderedField F] {sqrt : F → F}
    (hs : CollisionUtil.IsSqrt sqrt) (getType : Nat → GameObjectType) (c : EventCollision F) :
    (getType c.ids.1 = GameObjectType.group → getType c.ids.2 = GameObjectType.group →
      collisionEvent getType (Event.collision c)
        = [(c.ids.1, c.direction * (-30 : F)), (c.ids.2, c.direction * (10 : F))]) ∧
    (getType c.ids.1 = GameObjectType.group → getType c.ids.2 ≠ GameObjectType.group →
      collisionEvent getType (Event.collision c) = [(c.ids.1, c.direction * (-30 : F))]) ∧
    (getType c.ids.1 ≠ GameObjectType.group → getType c.ids.2 = GameObjectType.group →
      collisionEvent getType (Event.collision c) = [(c.ids.2, c.direction * (10 : F))]) ∧
    (getType c.ids.1 ≠ GameObjectType.group → getType c.ids.2 ≠ GameObjectType.group →
      collisionEvent getType (Event.collision c) = []) ∧
    c.direction * (-30 : F) = -(c.direction * (10 : F) * (3 : F)) ∧
    VectorUtil.distance sqrt 0 (c.direction * (-30 : F))
      = 3 * VectorUtil.distance sqrt 0 (c.direction * (10 : F)) ∧
    (∀ client_id : Nat,
      collisionEvent getType (Event.clientConnected client_id : Event F) = []) := by
  refine ⟨?_, ?_, ?_, ?_, ?_, ?_, ?_⟩
  · intro h1 h2
    simp [collisionEvent, h1, h2]
  · intro h1 h2
    simp [collisionEvent, h1, h2]
  · intro h1 h2
    simp [collisionEvent, h1, h2]
  · intro h1 h2
    simp [collisionEvent, h1, h2]
  · ext
    · simp only [Vector2.mul_x, Vector2.neg_x]
      ring
    · simp only [Vector2.mul_y, Vector2.neg_y]
      ring
  · rw [CollisionUtil.magnitude_mul hs, CollisionUtil.magnitude_mul hs]
    rw [abs_of_neg (by norm_num : (-30 : F) < 0), abs_of_pos (by norm_num : (0 : F) < 10)]
    ring
  · intro client_id
    rfl

theorem collisionEvent_knockback_witness :
    CollisionUtil.IsSqrt Real.sqrt ∧
    collisionEvent (fun _ => GameObjectType.group)
        (Event.collision (⟨⟨(4, 5), 0, 0, (0, 0)⟩, ⟨1, 0⟩⟩ : EventCollision ℝ))
      = [(4, (⟨1, 0⟩ : Vector2 ℝ) * (-30 : ℝ)), (5, (⟨1, 0⟩ : Vector2 ℝ) * (10 : ℝ))] :=
  ⟨CollisionUtil.isSqrt_real,
    (collisionEvent_knockback CollisionUtil.isSqrt_real (fun _ => GameObjectType.group)
      (⟨⟨(4, 5), 0, 0, (0, 0)⟩, ⟨1, 0⟩⟩ : EventCollision ℝ)).1 rfl rfl⟩

end GameController

namespace ResourceController

variable {N : Nat}

/-! ## The frame of the ledger mutators -/

/-- C20: ledger mutators touch one counter only. After `set`, `add` or `subtract` on
`(id, t)` the balance of every other pair `(k, u)` (`k ≠ id` or `u ≠ t`) is what it was, an
entity without a record counting as all-zero; and neither form of `get`, on any id, changes a
balance. -/
theorem mutators_touch_one_counter (L : Ledger N) (id : Nat) (t : Fin N) (cnt : Nat)
    (k : Nat) (u : Fin N) (hne : k ≠ id ∨ u ≠ t) :
    balance (set L id t cnt) k u = balance L k u ∧
    balance (add L id t cnt).2 k u = balance L k u ∧
    balance (subtract L id t cnt).2 k u = balance L k u ∧
    (∀ (j : Nat) (w : Fin N), balance (get L j w).2 k u = balance L k u) ∧
    (∀ j : Nat, balance (getAll L j).2 k u = balance L k u) ∧
    (∀ (j : Nat) (w : Fin N), (get L j w).1 = balance L j w) ∧
    (∀ j : Nat, (getAll L j).1 = fun w => balance L j w) := by
  have hno : ¬ (k = id ∧ u = t) := by
    rintro ⟨h1, h2⟩
    rcases hne with h | h
    · exact h h1
    · exact h h2
  refine ⟨?_, ?_, ?_, ?_, ?_, ?_, ?_⟩
  · simp only [set, balance_assign, balance_init, hno, if_false]
  · simp only [add, balance_assign, balance_init, hno, if_false]
  · simp only [subtract, balance_assign, balance_init, hno, if_false]
  · intro j w
    simp only [get, balance_init]
  · intro j
    simp only [getAll, balance_init]
  · intro j w
    simp only [get, balance, lookup_init]
  · intro j
    simp only [getAll, balance, lookup_init]

theorem mutators_touch_one_counter_witness :
    ((7 : Nat) ≠ 7 ∨ (2 : Fin 4) ≠ 0) ∧
    balance (set sampleLedger 7 0 11) 7 2 = balance sampleLedger 7 2 ∧
    balance (add sampleLedger 7 0 11).2 7 2 = balance sampleLedger 7 2 ∧
    balance (subtract sampleLedger 7 0 11).2 7 2 = balance sampleLedger 7 2 :=
  ⟨by decide, (mutators_touch_one_counter sampleLedger 7 0 11 7 2 (by decide)).1,
    (mutators_touch_one_counter sampleLedger 7 0 11 7 2 (by decide)).2.1,
    (mutators_touch_one_counter sampleLedger 7 0 11 7 2 (by decide)).2.2.1⟩

end ResourceController

end Ungroup
